import Mathlib

/-!
# Dystruct input parsing (`src/util.cpp`)

A shallow embedding of the text-file readers of Dystruct:
`read_generations`, `check_input_file`, `read_snp_matrix` and `read_pop_labels`.
The convergence check `Cavi::check_theta_convergence`, of which only the declaration
in `cavi.h` is at hand, is modelled from its description.

Modelling conventions

* A file is the sequence of its characters (`List Char`, one `Char` per byte); the
  file system is a function from file names to optional contents, `none` meaning
  that `ifstream::is_open()` is false.
* `exit(1)` after a message on `cerr` is a returned `Failure` carrying the data
  printed in the message; an access outside a container (undefined behaviour in
  C++) is the separate failure `Failure.outOfBounds`.
* `std::vector<int>` is `List Int`; counters that start at zero and are only
  incremented are `Nat`; they stay far below `2^31` for any file that fits in
  memory, so no wrap-around is modelled for them. The range of `int` matters where
  an integer is parsed from text, and is modelled there.
-/

namespace Dystruct

/-! ## Characters and streams -/

/-- Whitespace of the "C" locale, as skipped by formatted extraction. -/
def isspace (c : Char) : Bool :=
  c = ' ' || c = '\t' || c = '\n' || c = '\x0b' || c = '\x0c' || c = '\r'

/-- Decimal digit characters. -/
def isdigit (c : Char) : Bool :=
  decide ('0'.toNat ≤ c.toNat ∧ c.toNat ≤ '9'.toNat)

/-- Value of a decimal digit character. -/
def digitVal (c : Char) : Nat := c.toNat - '0'.toNat

/-- Value of a string of decimal digits (most significant first). -/
def digitsValue (ds : List Char) : Nat :=
  ds.foldl (fun acc c => 10 * acc + digitVal c) 0

def INT_MAX : Int := 2147483647

def INT_MIN : Int := -2147483648

/-- The lines that `while (getline(input, line))` iterates over: the contents are cut
at every newline character; a last line without newline is still delivered, and
nothing is delivered after a final newline. -/
def getlines : List Char → List (List Char)
  | [] => []
  | c :: rest =>
    if c = '\n' then [] :: getlines rest
    else
      match getlines rest with
      | [] => [[c]]
      | l :: ls => (c :: l) :: ls

/-- Outcome of `iss >> skipws >> g` for an `int` variable `g`. -/
inductive Extract where
  /-- Extraction succeeded: the value stored and the unread rest of the stream. -/
  | ok (v : Int) (rest : List Char)
  /-- Extraction failed after the variable was assigned `v` (no digits: `0`;
  out of range: the nearest `int`). -/
  | failSet (v : Int)
  /-- Only whitespace was left: the stream fails and the variable is untouched. -/
  | failKeep
  deriving DecidableEq, Repr

/-- Splits an optional sign off the front of the text. -/
def takeSign : List Char → Bool × List Char
  | [] => (false, [])
  | c :: r =>
    if c = '-' then (true, r)
    else if c = '+' then (false, r)
    else (false, c :: r)

/-- The conversion stage of the extraction of an `int`, after the optional sign: reads
the longest run of digits. It fails if there is no digit or if the value does not
fit `int`. -/
def extractDigits (negative : Bool) (s : List Char) : Extract :=
  let ds := s.takeWhile isdigit
  if ds = [] then .failSet 0
  else
    let v : Int := if negative then -(digitsValue ds : Int) else (digitsValue ds : Int)
    if v < INT_MIN then .failSet INT_MIN
    else if INT_MAX < v then .failSet INT_MAX
    else .ok v (s.dropWhile isdigit)

/-- Formatted extraction of an `int` (`operator>>(int&)` with `skipws`, base 10):
leading whitespace is skipped, then an optional sign and the longest run of
digits are read. -/
def extractInt (s : List Char) : Extract :=
  match s.dropWhile isspace with
  | [] => .failKeep
  | c :: r => extractDigits (takeSign (c :: r)).1 (takeSign (c :: r)).2

/-- The C function `atoi`: optional whitespace, optional sign, then the longest run
of digits; `0` if there is no digit. (Only ever called on a one-character string
here, so the result is a single digit and no overflow can occur.) -/
def atoi (s : List Char) : Int :=
  let sg := takeSign (s.dropWhile isspace)
  let v : Int := (digitsValue (sg.2.takeWhile isdigit) : Int)
  if sg.1 then -v else v

/-! ## Failures and warnings -/

/-- Ways in which a reader stops without returning. -/
inductive Failure where
  /-- "cannot open <fname>", then `exit(1)`. -/
  | cannotOpen (fname : String)
  /-- "Input Error (<fname>): more than one generation time per line", then `exit(1)`. -/
  | moreThanOneGeneration (fname : String)
  /-- "Input Error (<fname>): line <line> column <column> has an invalid entry.",
  then `exit(1)`. -/
  | invalidEntry (fname : String) (line column : Nat)
  /-- "Input Error (<fname>): line <line> has <found> samples, but generation file
  has <expected>.", then `exit(1)`. -/
  | columnCount (fname : String) (line found : Nat) (expected : Int)
  /-- An element access outside the bounds of a container. -/
  | outOfBounds
  /-- A read of a variable that was never assigned. -/
  | uninitialized
  deriving DecidableEq, Repr

/-- Messages printed on `cerr` that do not stop the program. -/
inductive Warning where
  /-- "line <line> has no nonmissing entries". -/
  | noNonmissing (fname : String) (line : Nat)
  /-- "line <line> only has 1 nonmissing entry". -/
  | oneNonmissing (fname : String) (line : Nat)
  /-- "<nloci> were specified, but <found> were found.". -/
  | lociMismatch (fname : String) (nloci : Int) (found : Nat)
  deriving DecidableEq, Repr

deriving instance DecidableEq for Except

/-! ## `read_generations` -/

/-- The inner loop `while (iss >> skipws >> g)` of `read_generations` on one line.
The first argument bounds the number of iterations; `read_generations` passes the
length of the line plus one, which the loop can never use up since every
successful extraction consumes a character. -/
def read_generations_line (fname : String) :
    Nat → List Char → Nat → List Int → Except Failure (List Int)
  | 0, _, _, generations => .ok generations
  | fuel + 1, iss, c, generations =>
    match extractInt iss with
    | .ok g rest =>
      let c := c + 1
      let generations := generations ++ [g]
      if c > 1 then .error (.moreThanOneGeneration fname)
      else read_generations_line fname fuel rest c generations
    | _ => .ok generations

/-- The outer loop `while (getline(input, line))` of `read_generations`. -/
def read_generations_lines (fname : String) :
    List (List Char) → List Int → Except Failure (List Int)
  | [], generations => .ok generations
  | line :: rest, generations =>
    match read_generations_line fname (line.length + 1) line 0 generations with
    | .error e => .error e
    | .ok generations => read_generations_lines fname rest generations

/-- The algorithm `std::unique_copy` after the first element: `prev` is the last
element copied. -/
def unique_copy_from (prev : Int) : List Int → List Int
  | [] => []
  | x :: xs => if x = prev then unique_copy_from prev xs else x :: unique_copy_from x xs

/-- The algorithm `std::unique_copy`: copies the first element of every run of equal
elements. -/
def unique_copy : List Int → List Int
  | [] => []
  | x :: xs => x :: unique_copy_from x xs

/-- The function `read_generations(fname, gen_sampled)`. Returns the vector
`generations` together with the updated `gen_sampled`; the insert iterator places
the new sample times, in order, in front of what `gen_sampled` held. -/
def read_generations (fs : String → Option (List Char)) (fname : String)
    (gen_sampled : List Int) : Except Failure (List Int × List Int) :=
  match fs fname with
  | none => .error (.cannotOpen fname)
  | some content =>
    match read_generations_lines fname (getlines content) [] with
    | .error e => .error e
    | .ok generations =>
      let generations_sorted := generations.insertionSort (fun a b => a ≤ b)
      .ok (generations, unique_copy generations_sorted ++ gen_sampled)

/-! ## `check_input_file` -/

/-- The inner loop `while (iss >> c[0])` of `check_input_file` on one line. Extraction
of a `char` skips whitespace and then delivers the next character, so the loop
body runs once for every non-whitespace character of the line, in order.
Returns `(col_count, nonmissing)`. -/
def check_input_row (fname : String) (locus_count : Nat) :
    List Char → Nat → Nat → Except Failure (Nat × Nat)
  | [], col_count, nonmissing => .ok (col_count, nonmissing)
  | ch :: iss, col_count, nonmissing =>
    if isspace ch then check_input_row fname locus_count iss col_count nonmissing
    else
      let g := atoi [ch]
      let col_count := col_count + 1
      if ¬ (g = 0 ∨ g = 1 ∨ g = 2 ∨ g = 9) then
        .error (.invalidEntry fname locus_count (col_count + 1))
      else
        let nonmissing := if g = 0 ∨ g = 1 ∨ g = 2 then nonmissing + 1 else nonmissing
        check_input_row fname locus_count iss col_count nonmissing

/-- The outer loop `while (getline(input, line))` of `check_input_file`. Returns
the final `locus_count` and the warnings printed. -/
def check_input_lines (fname : String) (n_columns : Int) :
    List (List Char) → Nat → List Warning → Except Failure (Nat × List Warning)
  | [], locus_count, warnings => .ok (locus_count, warnings)
  | line :: rest, locus_count, warnings =>
    let locus_count := locus_count + 1
    match check_input_row fname locus_count line 0 0 with
    | .error e => .error e
    | .ok (col_count, nonmissing) =>
      if (col_count : Int) ≠ n_columns then
        .error (.columnCount fname locus_count col_count n_columns)
      else
        let warnings :=
          if nonmissing = 0 then warnings ++ [.noNonmissing fname locus_count] else warnings
        let warnings :=
          if nonmissing = 1 then warnings ++ [.oneNonmissing fname locus_count] else warnings
        check_input_lines fname n_columns rest locus_count warnings

/-- The function `check_input_file(fname, nloci, n_columns)`. Returns `locus_count`
and the warnings printed on the way. -/
def check_input_file (fs : String → Option (List Char)) (fname : String)
    (nloci n_columns : Int) : Except Failure (Nat × List Warning) :=
  match fs fname with
  | none => .error (.cannotOpen fname)
  | some content =>
    match check_input_lines fname n_columns (getlines content) 0 [] with
    | .error e => .error e
    | .ok (locus_count, warnings) =>
      let warnings :=
        if nloci ≠ (locus_count : Int) then
          warnings ++ [.lociMismatch fname nloci locus_count]
        else warnings
      .ok (locus_count, warnings)

/-! ## Containers used by `read_snp_matrix` -/

/-- A `std::map<int, V>`: key-value pairs in increasing key order. -/
abbrev IntMap (β : Type) := List (Int × β)

/-- The assignment `m[k] = v`: overwrites the value of an existing key, otherwise
inserts the pair at its place in key order. -/
def map_assign {β : Type} : IntMap β → Int → β → IntMap β
  | [], k, v => [(k, v)]
  | (k', v') :: rest, k, v =>
    if k < k' then (k, v) :: (k', v') :: rest
    else if k = k' then (k, v) :: rest
    else (k', v') :: map_assign rest k v

/-- Look-up of a key (`m.find(k)`). -/
def map_find {β : Type} : IntMap β → Int → Option β
  | [], _ => none
  | (k', v') :: rest, k => if k = k' then some v' else map_find rest k

/-- The value of `m[k]` in a `std::map<int, int>` of counters: a key that is not
present is created with the value `0`. -/
def map_at (m : IntMap Nat) (k : Int) : Nat := (map_find m k).getD 0

/-- The genotype store `std_vector3<short>`: a vector, indexed by time step, of
two-dimensional arrays indexed by individual and locus. -/
abbrev Snps := List (List (List Int))

/-- A `vector2<short>(boost::extents[rows][cols])`: all elements are
value-initialised to zero. -/
def zeros (rows cols : Nat) : List (List Int) :=
  List.replicate rows (List.replicate cols 0)

/-- The element `snps[t][d][l]`, if it exists. -/
def read3 (snps : Snps) (t d l : Nat) : Option Int :=
  match snps[t]? with
  | none => none
  | some mat =>
    match mat[d]? with
    | none => none
    | some row => row[l]?

/-- The assignment `snps[t][d][l] = v`; `none` if the element does not exist. -/
def write3 (snps : Snps) (t d l : Nat) (v : Int) : Option Snps :=
  match snps[t]? with
  | none => none
  | some mat =>
    match mat[d]? with
    | none => none
    | some row =>
      if l < row.length then some (snps.set t (mat.set d (row.set l v))) else none

/-! ## `read_snp_matrix` -/

/-- The inner loop `while (iss >> c[0])` of the fill loop of `read_snp_matrix` on the
line with index `l`; `i` is the column and `gen_to_nsamples` the per-line map
from generation to number of samples seen. -/
def fill_row (generations gen_sampled : List Int) (l : Nat) :
    List Char → Nat → IntMap Nat → Snps → Except Failure Snps
  | [], _, _, snps => .ok snps
  | ch :: iss, i, gen_to_nsamples, snps =>
    if isspace ch then fill_row generations gen_sampled l iss i gen_to_nsamples snps
    else
      let genotype := atoi [ch]
      match generations[i]? with
      | none => .error .outOfBounds
      | some gen =>
        let index := gen_sampled.indexOf gen
        match write3 snps index (map_at gen_to_nsamples gen) l genotype with
        | none => .error .outOfBounds
        | some snps =>
          let gen_to_nsamples :=
            map_assign gen_to_nsamples gen (map_at gen_to_nsamples gen + 1)
          fill_row generations gen_sampled l iss (i + 1) gen_to_nsamples snps

/-- The fill loop `while (getline(input, line))` of `read_snp_matrix`, left by `break`
as soon as `l == nloci`. -/
def fill_lines (generations gen_sampled : List Int) (nloci : Nat) :
    List (List Char) → Nat → Snps → Except Failure Snps
  | [], _, snps => .ok snps
  | line :: rest, l, snps =>
    match fill_row generations gen_sampled l line 0 [] snps with
    | .error e => .error e
    | .ok snps =>
      let l := l + 1
      if l = nloci then .ok snps
      else fill_lines generations gen_sampled nloci rest l snps

/-- The last loop of `read_snp_matrix`, over the samples from index `i` on: builds
the map from original sample index to (time-step index, row). -/
def build_sample_map (gen_sampled : List Int) :
    List Int → Nat → IntMap Nat → IntMap (Nat × Nat) → IntMap (Nat × Nat)
  | [], _, _, sample_map => sample_map
  | gen :: rest, i, gen_to_nsamples, sample_map =>
    let index := gen_sampled.indexOf gen
    let sample_map := map_assign sample_map (i : Int) (index, map_at gen_to_nsamples gen)
    let gen_to_nsamples := map_assign gen_to_nsamples gen (map_at gen_to_nsamples gen + 1)
    build_sample_map gen_sampled rest (i + 1) gen_to_nsamples sample_map

/-- What `read_snp_matrix` leaves behind: the returned `sample_map`, the contents of
`*snps`, and the reference arguments `gen_sampled` and `nloci`; also the warnings
printed by the check of the genotype file. -/
structure Loaded where
  sample_map : IntMap (Nat × Nat)
  snps : Snps
  gen_sampled : List Int
  nloci : Nat
  warnings : List Warning
  deriving DecidableEq, Repr

/-- The function `read_snp_matrix(fname, gen_fname, snps, gen_sampled, nloci)`. -/
def read_snp_matrix (fs : String → Option (List Char)) (fname gen_fname : String)
    (snps : Snps) (gen_sampled : List Int) (nloci : Int) : Except Failure Loaded :=
  match read_generations fs gen_fname gen_sampled with
  | .error e => .error e
  | .ok (generations, gen_sampled) =>
    match check_input_file fs fname nloci (generations.length : Int) with
    | .error e => .error e
    | .ok (found_loci, warnings) =>
      let nloci := found_loci
      match fs fname with
      | none => .error (.cannotOpen fname)
      | some content =>
        let snps := snps ++ gen_sampled.map (fun g => zeros (generations.count g) nloci)
        match fill_lines generations gen_sampled nloci (getlines content) 0 snps with
        | .error e => .error e
        | .ok snps =>
          .ok { sample_map := build_sample_map gen_sampled generations 0 [] []
                snps := snps
                gen_sampled := gen_sampled
                nloci := nloci
                warnings := warnings }

/-! ## `read_pop_labels` -/

/-- The part of `SNPData` (declared in `snp_data.h`) that `read_pop_labels` uses:
the number of time steps, the number of individuals at each time step and the
second extent of the label table. -/
structure SNPData where
  total_time_steps : Nat
  max_individuals : Nat
  total_individuals : Nat → Nat

/-- An input file stream: the characters not yet read, and whether the stream is
still `good()` (neither `eofbit` nor `failbit` set). -/
structure IStream where
  rest : List Char
  good : Bool
  deriving DecidableEq, Repr

/-- The call `getline(input, line)`: returns the stream afterwards and the new value of
`line`. On a stream that is not good the call changes nothing. Otherwise `line`
is erased and receives the characters up to the next newline, which is consumed;
if the end of the file is met first the stream is no longer good. -/
def getline (input : IStream) (line : List Char) : IStream × List Char :=
  if input.good then
    match input.rest.dropWhile (fun c => c ≠ '\n') with
    | [] => ({ rest := [], good := false }, input.rest.takeWhile (fun c => c ≠ '\n'))
    | _ :: r => ({ rest := r, good := true }, input.rest.takeWhile (fun c => c ≠ '\n'))
  else (input, line)

/-- The assignment `labels[t][d] = v`; `none` if the element does not exist. -/
def write2 (labels : List (List Int)) (t d : Nat) (v : Int) : Option (List (List Int)) :=
  match labels[t]? with
  | none => none
  | some row => if d < row.length then some (labels.set t (row.set d v)) else none

/-- The state of the loops of `read_pop_labels`: the stream, the variables `line` and
`label` (`none` while `label` has never been assigned), and the table. -/
structure LabelState where
  input : IStream
  line : List Char
  label : Option Int
  labels : List (List Int)
  deriving DecidableEq, Repr

/-- The inner loop `for (d = ...; d < total_individuals(t); ++d)` of `read_pop_labels`
with `todo` iterations left to run. -/
def read_pop_labels_row (t : Nat) : Nat → Nat → LabelState → Except Failure LabelState
  | 0, _, st => .ok st
  | todo + 1, d, st =>
    let (input, line) := getline st.input st.line
    let label :=
      match extractInt line with
      | .ok v _ => some v
      | .failSet v => some v
      | .failKeep => st.label
    match label with
    | none => .error .uninitialized
    | some v =>
      match write2 st.labels t d v with
      | none => .error .outOfBounds
      | some labels =>
        read_pop_labels_row t todo (d + 1)
          { input := input, line := line, label := label, labels := labels }

/-- The outer loop `for (t = ...; t < total_time_steps(); ++t)` of `read_pop_labels`
with `todo` iterations left to run. -/
def read_pop_labels_steps (snp_data : SNPData) :
    Nat → Nat → LabelState → Except Failure LabelState
  | 0, _, st => .ok st
  | todo + 1, t, st =>
    match read_pop_labels_row t (snp_data.total_individuals t) 0 st with
    | .error e => .error e
    | .ok st => read_pop_labels_steps snp_data todo (t + 1) st

/-- The function `read_pop_labels(fname, snp_data)`. -/
def read_pop_labels (fs : String → Option (List Char)) (fname : String)
    (snp_data : SNPData) : Except Failure (List (List Int)) :=
  match fs fname with
  | none => .error (.cannotOpen fname)
  | some content =>
    let st : LabelState :=
      { input := { rest := content, good := true }
        line := []
        label := none
        labels := zeros snp_data.total_time_steps snp_data.max_individuals }
    match read_pop_labels_steps snp_data snp_data.total_time_steps 0 st with
    | .error e => .error e
    | .ok st => .ok st.labels

/-! ## The fill loop of `read_snp_matrix` with its element accesses recorded -/

/-- An element access of the fill loop of `read_snp_matrix`. -/
inductive Access where
  /-- The read `generations[i]`. -/
  | sample (i : Nat)
  /-- The write `(*snps)[index][row][l] = genotype`. -/
  | cell (index row l : Nat)
  deriving DecidableEq, Repr

/-- The loop `fill_row` with every element access appended to `log` before it is made;
the loop itself is unchanged. -/
def fill_row_log (generations gen_sampled : List Int) (l : Nat) :
    List Char → Nat → IntMap Nat → Snps → List Access → Except Failure Snps × List Access
  | [], _, _, snps, log => (.ok snps, log)
  | ch :: iss, i, gen_to_nsamples, snps, log =>
    if isspace ch then
      fill_row_log generations gen_sampled l iss i gen_to_nsamples snps log
    else
      let genotype := atoi [ch]
      let log := log ++ [.sample i]
      match generations[i]? with
      | none => (.error .outOfBounds, log)
      | some gen =>
        let index := gen_sampled.indexOf gen
        let log := log ++ [.cell index (map_at gen_to_nsamples gen) l]
        match write3 snps index (map_at gen_to_nsamples gen) l genotype with
        | none => (.error .outOfBounds, log)
        | some snps =>
          let gen_to_nsamples :=
            map_assign gen_to_nsamples gen (map_at gen_to_nsamples gen + 1)
          fill_row_log generations gen_sampled l iss (i + 1) gen_to_nsamples snps log

/-- The loop `fill_lines` with every element access recorded. -/
def fill_lines_log (generations gen_sampled : List Int) (nloci : Nat) :
    List (List Char) → Nat → Snps → List Access → Except Failure Snps × List Access
  | [], _, snps, log => (.ok snps, log)
  | line :: rest, l, snps, log =>
    match fill_row_log generations gen_sampled l line 0 [] snps log with
    | (.error e, log) => (.error e, log)
    | (.ok snps, log) =>
      let l := l + 1
      if l = nloci then (.ok snps, log)
      else fill_lines_log generations gen_sampled nloci rest l snps log

/-- The element accesses that the fill loop of `read_snp_matrix` makes, in order; none
if the function stops before the fill loop. -/
def read_snp_matrix_accesses (fs : String → Option (List Char)) (fname gen_fname : String)
    (snps : Snps) (gen_sampled : List Int) (nloci : Int) : List Access :=
  match read_generations fs gen_fname gen_sampled with
  | .error _ => []
  | .ok (generations, gen_sampled) =>
    match check_input_file fs fname nloci (generations.length : Int) with
    | .error _ => []
    | .ok (found_loci, _) =>
      match fs fname with
      | none => []
      | some content =>
        (fill_lines_log generations gen_sampled found_loci (getlines content) 0
          (snps ++ gen_sampled.map (fun g => zeros (generations.count g) found_loci)) []).2

/-! ## `Cavi::check_theta_convergence` (declared in `cavi.h`) -/

/-- The scalar summaries of the entrywise changes that the description of the
convergence check names: the maximum and the mean. -/
inductive ChangeSummary where
  | maximum
  | mean
  deriving DecidableEq, Repr

/-- Modelled from the spec: the change of one entry of the mixture tensor against the
same entry of the snapshot, as used by `Cavi::check_theta_convergence` (its
definition is not among the sources): the absolute difference, or the absolute
difference relative to the magnitude of the snapshot entry. Numbers of the type
`double` are rationals here, with exact arithmetic. -/
def entryChange (relative : Bool) (x y : ℚ) : ℚ :=
  if relative then |x - y| / |y| else |x - y|

/-- Modelled from the spec: the comparison of every entry `theta[t][d][k]` with the entry
`prev_theta[t][d][k]` of the snapshot in `Cavi::check_theta_convergence` (definition
not among the sources): the list of the changes of all entries, in index order. -/
def entryChanges (relative : Bool) (theta prev_theta : List (List (List ℚ))) : List ℚ :=
  (List.zipWith
    (fun m pm => (List.zipWith (fun r pr => List.zipWith (entryChange relative) r pr) m pm).flatten)
    theta prev_theta).flatten

/-- Modelled from the spec: the summary change of `Cavi::check_theta_convergence`
(definition not among the sources), a scalar magnitude: the maximum of the entry
changes, or their mean. -/
def summarise : ChangeSummary → List ℚ → ℚ
  | .maximum, changes => changes.foldl max 0
  | .mean, changes => changes.sum / (changes.length : ℚ)

/-- Modelled from the spec: the member function
`Cavi::check_theta_convergence(prev_theta)`, which `cavi.h` declares and whose
definition is not among the sources. It compares every entry of the current
mixture tensor `theta` with the snapshot `prev_theta` and returns the pair of
`converged` and the summary change; `converged` is true when the summary change is
below the fixed tolerance. The kind of summary and the tolerance, which the
description leaves open, are parameters. -/
def check_theta_convergence (summary : ChangeSummary) (relative : Bool) (tolerance : ℚ)
    (theta prev_theta : List (List (List ℚ))) : Bool × ℚ :=
  let change := summarise summary (entryChanges relative theta prev_theta)
  (decide (change < tolerance), change)

/-! ## Notions used to state the properties -/

/-- The integer that `read_generations` takes from a line, if any: the result of the
first extraction on that line. -/
def firstInt (line : List Char) : Option Int :=
  match extractInt line with
  | .ok v _ => some v
  | _ => none

/-- The line holds exactly the integer `v`: it consists of optional whitespace, an
optional sign, a non-empty run of decimal digits and optional whitespace, the
signed decimal value being `v`, a value of the type `int`. -/
def holdsOneInteger (line : List Char) (v : Int) : Prop :=
  ∃ pre sign ds post, line = pre ++ (sign ++ (ds ++ post)) ∧
    (∀ c ∈ pre, isspace c = true) ∧ (∀ c ∈ post, isspace c = true) ∧
    ds ≠ [] ∧ (∀ c ∈ ds, isdigit c = true) ∧
    (((sign = [] ∨ sign = ['+']) ∧ v = (digitsValue ds : Int)) ∨
      (sign = ['-'] ∧ v = -(digitsValue ds : Int))) ∧
    INT_MIN ≤ v ∧ v ≤ INT_MAX

/-- The entries of a line of the genotype file as the readers see them: its
non-whitespace characters, in order. -/
def entries (line : List Char) : List Char := line.filter (fun c => !isspace c)

/-- The whitespace-separated tokens of a line. -/
def tokens (line : List Char) : List (List Char) :=
  (line.splitOnP isspace).filter (fun t => !t.isEmpty)

/-- The genotype codes that `check_input_file` lets pass: `0`, `1`, `2` and `9`. -/
def validCode (g : Int) : Prop := g = 0 ∨ g = 1 ∨ g = 2 ∨ g = 9

instance (g : Int) : Decidable (validCode g) := by unfold validCode; infer_instance

/-- The fatal input errors: the failures that `exit(1)` after an "Input Error" message. -/
def Failure.isInputError : Failure → Bool
  | .moreThanOneGeneration _ => true
  | .invalidEntry _ _ _ => true
  | .columnCount _ _ _ _ => true
  | _ => false

/-- The cell of the genotype store that belongs to the sample in column `i`: the
position of its generation in `gen_sampled`, and the number of earlier samples of
the same generation. -/
def sampleSlot (generations gen_sampled : List Int) (i : Nat) : Option (Nat × Nat) :=
  generations[i]?.map (fun gen => (gen_sampled.indexOf gen, (generations.take i).count gen))

/-- The element `labels[t][d]`, if it exists. -/
def read2 (labels : List (List Int)) (t d : Nat) : Option Int :=
  match labels[t]? with
  | none => none
  | some row => row[d]?

/-- The lines that further calls of `getline` will deliver from a stream. -/
def pendingLines (input : IStream) : List (List Char) :=
  if input.good then getlines input.rest else []

/-- The 0-based number of the line of the label file that belongs to the first
individual of time step `t`: the sum of the numbers of individuals of the earlier
time steps. -/
def firstLabelLine (snp_data : SNPData) : Nat → Nat
  | 0 => 0
  | t + 1 => firstLabelLine snp_data t + snp_data.total_individuals t

/-- A data set with two time steps, of one and of three individuals. -/
def snpDemo : SNPData :=
  { total_time_steps := 2
    max_individuals := 3
    total_individuals := fun t => if t = 0 then 1 else if t = 1 then 3 else 0 }

/-- A small file system used for concrete runs. -/
def fsDemo (n : String) : Option (List Char) :=
  if n = "gen" then some "3\n1\n3\n2\n".toList
  else if n = "gen_blank" then some "3\n\n1\n".toList
  else if n = "geno" then some "0 1 2 9\n1 1 0 2\n".toList
  else if n = "geno_short" then some "0 1 2 9\n1 1 0\n".toList
  else if n = "geno_five" then some "0 1 2 9\n5 1 0 2\n".toList
  else if n = "geno_joined" then some "01 2 9\n".toList
  else if n = "lab" then some "7\n8\n9\n10".toList
  else none

/-- The token is the numeral of the integer `v`: an optional sign and a non-empty run
of decimal digits, the signed decimal value being `v`, a value of the type `int`. -/
def isNumeral (tok : List Char) (v : Int) : Prop :=
  ∃ sign ds, tok = sign ++ ds ∧ ds ≠ [] ∧ (∀ c ∈ ds, isdigit c = true) ∧
    (((sign = [] ∨ sign = ['+']) ∧ v = (digitsValue ds : Int)) ∨
      (sign = ['-'] ∧ v = -(digitsValue ds : Int))) ∧
    INT_MIN ≤ v ∧ v ≤ INT_MAX

/-- The line holds two or more whitespace-separated integers: two of its
whitespace-separated tokens, at different places, are numerals of integers. -/
def holdsSeveralIntegers (line : List Char) : Prop :=
  ∃ (i j : Nat) (ti tj : List Char) (v w : Int), i < j ∧
    (tokens line)[i]? = some ti ∧ (tokens line)[j]? = some tj ∧
    isNumeral ti v ∧ isNumeral tj w

/-- The line starts with two integers: after optional whitespace comes the numeral of
`v`, then whitespace, then the numeral of `w`, and the line ends there or goes on
with whitespace. -/
def startsWithTwoIntegers (line : List Char) (v w : Int) : Prop :=
  ∃ pre first sep second rest, line = pre ++ (first ++ (sep ++ (second ++ rest))) ∧
    (∀ c ∈ pre, isspace c = true) ∧ isNumeral first v ∧
    sep ≠ [] ∧ (∀ c ∈ sep, isspace c = true) ∧ isNumeral second w ∧
    (∀ c, rest.head? = some c → isspace c = true)

/-- Generation files used for concrete runs: one with a line of two integers, one
with lines on which a word stands between or before two integers. -/
def fsDemoGen (n : String) : Option (List Char) :=
  if n = "gen_pair" then some "3\n1 2\n".toList
  else if n = "gen_mixed" then some "3 x 4\nx 5 6\n".toList
  else none

/-- The file system `fsDemo` with the genotype file written without separators in its
first row and with tabs and double spaces in its second row. -/
def fsDemoPacked (n : String) : Option (List Char) :=
  if n = "geno" then some "0129\n1\t1 0  2\n".toList
  else fsDemo n

/-- The number of samples in the columns before column `i` whose generation is `gen`. -/
def earlierSamples (generations : List Int) (i : Nat) (gen : Int) : Nat :=
  ((List.range i).filter (fun j => decide (generations[j]? = some gen))).length

/-- The access stays within the containers: a column below `generations.size()`; a
time-step index below `gen_sampled.size()`, a row below the number of rows allocated
for that time step (the number of samples of its generation) and a locus below
`nloci`. -/
def Access.inBounds (generations gen_sampled : List Int) (nloci : Nat) : Access → Prop
  | .sample i => i < generations.length
  | .cell index row l =>
    index < gen_sampled.length ∧
      (∃ g, gen_sampled[index]? = some g ∧ row < generations.count g) ∧ l < nloci

/-- The access is to an element that exists in the given containers. -/
def Access.present (generations : List Int) (snps : Snps) : Access → Prop
  | .sample i => i < generations.length
  | .cell index row l => (read3 snps index row l).isSome = true

/-! ## Properties of `read_generations` -/

theorem isdigit_not_isspace {c : Char} (h : isdigit c = true) : isspace c = false := by
  unfold isspace
  simp only [Bool.or_eq_false_iff, decide_eq_false_iff_not]
  refine ⟨⟨⟨⟨⟨?_, ?_⟩, ?_⟩, ?_⟩, ?_⟩, ?_⟩ <;> · rintro rfl; revert h; decide

theorem isdigit_not_sign {c : Char} (h : isdigit c = true) : c ≠ '-' ∧ c ≠ '+' := by
  constructor <;> · rintro rfl; revert h; decide

theorem takeWhile_isdigit_append {ds post : List Char} (hds : ∀ c ∈ ds, isdigit c = true)
    (hpost : ∀ c ∈ post, isspace c = true) :
    (ds ++ post).takeWhile isdigit = ds ∧ (ds ++ post).dropWhile isdigit = post := by
  have hp : ∀ c ∈ post, isdigit c = false := by
    intro c hc
    cases hd : isdigit c with
    | false => rfl
    | true => have := isdigit_not_isspace hd; rw [hpost c hc] at this; cases this
  have h1 : post.takeWhile isdigit = [] := by
    cases post with
    | nil => rfl
    | cons a t => simp [List.takeWhile, hp a (List.mem_cons_self _ _)]
  have h2 : post.dropWhile isdigit = post := by
    cases post with
    | nil => rfl
    | cons a t => simp [List.dropWhile, hp a (List.mem_cons_self _ _)]
  constructor
  · rw [List.takeWhile_append, List.takeWhile_eq_self_iff.mpr hds]; simp [h1]
  · rw [List.dropWhile_append_of_pos hds, h2]

theorem extractDigits_append {ds post : List Char} (negative : Bool) (hne : ds ≠ [])
    (hds : ∀ c ∈ ds, isdigit c = true) (hpost : ∀ c ∈ post, isspace c = true)
    (hlo : INT_MIN ≤ (if negative then -(digitsValue ds : Int) else (digitsValue ds : Int)))
    (hhi : (if negative then -(digitsValue ds : Int) else (digitsValue ds : Int)) ≤ INT_MAX) :
    extractDigits negative (ds ++ post) =
      .ok (if negative then -(digitsValue ds : Int) else (digitsValue ds : Int)) post := by
  obtain ⟨htk, hdr⟩ := takeWhile_isdigit_append hds hpost
  unfold extractDigits
  rw [htk, hdr]
  simp only [hne, if_false, not_lt.mpr hlo, not_lt.mpr hhi]

theorem extractInt_skip {pre s : List Char} (hpre : ∀ c ∈ pre, isspace c = true) :
    extractInt (pre ++ s) = extractInt s := by
  unfold extractInt
  rw [List.dropWhile_append_of_pos hpre]

theorem extractInt_cons {c : Char} (r : List Char) (h : isspace c = false) :
    extractInt (c :: r) = extractDigits (takeSign (c :: r)).1 (takeSign (c :: r)).2 := by
  unfold extractInt
  simp [List.dropWhile, h]

/-- Extraction on a line that holds exactly one integer delivers that integer and
leaves only whitespace. -/
theorem extractInt_of_holdsOneInteger {line : List Char} {v : Int}
    (h : holdsOneInteger line v) :
    ∃ post, extractInt line = .ok v post ∧ ∀ c ∈ post, isspace c = true := by
  obtain ⟨pre, sign, ds, post, rfl, hpre, hpost, hne, hds, hv, hlo, hhi⟩ := h
  refine ⟨post, ?_, hpost⟩
  rw [extractInt_skip hpre]
  obtain ⟨d, ds', rfl⟩ := List.exists_cons_of_ne_nil hne
  have hd : isdigit d = true := hds d (List.mem_cons_self _ _)
  obtain ⟨hm, hp⟩ := isdigit_not_sign hd
  rcases hv with ⟨hs | hs, rfl⟩ | ⟨hs, rfl⟩
  · subst hs
    rw [List.nil_append, List.cons_append, extractInt_cons _ (isdigit_not_isspace hd)]
    have e : takeSign (d :: (ds' ++ post)) = (false, (d :: ds') ++ post) := by
      simp [takeSign, hm, hp]
    rw [e]
    exact extractDigits_append false hne hds hpost hlo hhi
  · subst hs
    have e1 : isspace '+' = false := by decide
    rw [List.singleton_append, extractInt_cons _ e1]
    have e : takeSign ('+' :: (d :: ds' ++ post)) = (false, (d :: ds') ++ post) := by
      simp [takeSign]
    rw [e]
    exact extractDigits_append false hne hds hpost hlo hhi
  · subst hs
    have e1 : isspace '-' = false := by decide
    rw [List.singleton_append, extractInt_cons _ e1]
    have e : takeSign ('-' :: (d :: ds' ++ post)) = (true, (d :: ds') ++ post) := by
      simp [takeSign]
    rw [e]
    exact extractDigits_append true hne hds hpost hlo hhi

theorem extractInt_of_all_space {s : List Char} (h : ∀ c ∈ s, isspace c = true) :
    extractInt s = .failKeep := by
  unfold extractInt
  rw [List.dropWhile_eq_nil_iff.mpr h]

/-- The inner loop of `read_generations` runs its body at most twice, so any bound
of at least two iterations gives the same result: no integer on the line leaves
`generations` as it is, exactly one appends it, a second one is fatal. -/
theorem read_generations_line_eq (fname : String) (fuel : Nat) (line : List Char)
    (generations : List Int) :
    read_generations_line fname (fuel + 2) line 0 generations =
      match extractInt line with
      | .ok g rest =>
        match extractInt rest with
        | .ok _ _ => .error (.moreThanOneGeneration fname)
        | _ => .ok (generations ++ [g])
      | _ => .ok generations := by
  rw [read_generations_line]
  cases h1 : extractInt line with
  | ok g rest =>
    simp only [Nat.zero_add, gt_iff_lt, lt_self_iff_false, if_false]
    rw [read_generations_line]
    cases h2 : extractInt rest <;> simp
  | failSet v => rfl
  | failKeep => rfl

theorem extractInt_nil : extractInt [] = .failKeep := rfl

/-- The inner loop of `read_generations` with the bound that `read_generations` passes. -/
theorem read_generations_line_length (fname : String) (line : List Char)
    (generations : List Int) :
    read_generations_line fname (line.length + 1) line 0 generations =
      match extractInt line with
      | .ok g rest =>
        match extractInt rest with
        | .ok _ _ => .error (.moreThanOneGeneration fname)
        | _ => .ok (generations ++ [g])
      | _ => .ok generations := by
  cases line with
  | nil => rfl
  | cons a t => exact read_generations_line_eq fname t.length (a :: t) generations

/-- An accepted run of the inner loop appends the first integer of the line, if
there is one. -/
theorem read_generations_line_ok (fname : String) (line : List Char)
    (generations result : List Int)
    (h : read_generations_line fname (line.length + 1) line 0 generations = .ok result) :
    result = generations ++ (firstInt line).toList := by
  rw [read_generations_line_length] at h
  unfold firstInt
  cases h1 : extractInt line with
  | ok g r =>
    simp only [h1] at h
    cases h2 : extractInt r with
    | ok g2 r2 => simp [h2] at h
    | failSet v => simp only [h2, Except.ok.injEq] at h; simp [← h]
    | failKeep => simp only [h2, Except.ok.injEq] at h; simp [← h]
  | failSet v => simp only [h1, Except.ok.injEq] at h; simp [← h]
  | failKeep => simp only [h1, Except.ok.injEq] at h; simp [← h]

/-- An accepted run of the line loop appends, for every line, the first integer of
that line if there is one. -/
theorem read_generations_lines_ok (fname : String) (lines : List (List Char)) :
    ∀ (generations result : List Int),
      read_generations_lines fname lines generations = .ok result →
      result = generations ++ lines.filterMap firstInt := by
  induction lines with
  | nil =>
    intro generations result h
    simp only [read_generations_lines, Except.ok.injEq] at h
    simp [h]
  | cons line rest ih =>
    intro generations result h
    rw [read_generations_lines] at h
    cases h1 : read_generations_line fname (line.length + 1) line 0 generations with
    | error e => simp [h1] at h
    | ok gens1 =>
      simp only [h1] at h
      rw [ih _ _ h, read_generations_line_ok _ _ _ _ h1, List.filterMap_cons]
      cases firstInt line <;> simp

/-- On lines that each hold exactly one integer the line loop succeeds and appends
these integers in order. -/
theorem read_generations_lines_of_holds (fname : String) (lines : List (List Char))
    (vals : List Int) (h : List.Forall₂ holdsOneInteger lines vals) :
    ∀ generations : List Int,
      read_generations_lines fname lines generations = .ok (generations ++ vals) := by
  induction h with
  | nil => intro generations; simp [read_generations_lines]
  | cons hl _ ih =>
    intro generations
    obtain ⟨post, he, hpost⟩ := extractInt_of_holdsOneInteger hl
    rw [read_generations_lines, read_generations_line_length]
    simp only [he, extractInt_of_all_space hpost]
    rw [ih]; simp

theorem unique_copy_from_spec (xs : List Int) :
    ∀ prev : Int, List.Chain (fun a b => a ≤ b) prev xs →
      List.Chain (fun a b => a < b) prev (unique_copy_from prev xs) ∧
      ∀ v, v ∈ prev :: unique_copy_from prev xs ↔ v ∈ prev :: xs := by
  induction xs with
  | nil => intro prev _; exact ⟨List.Chain.nil, fun v => Iff.rfl⟩
  | cons x xs ih =>
    intro prev h
    rw [List.chain_cons] at h
    obtain ⟨hle, hch⟩ := h
    rw [unique_copy_from]
    by_cases hx : x = prev
    · subst hx
      obtain ⟨h1, h2⟩ := ih x hch
      simp only [if_true]
      refine ⟨h1, fun v => ?_⟩
      rw [h2 v]; simp
    · obtain ⟨h1, h2⟩ := ih x hch
      simp only [hx, if_false]
      refine ⟨List.Chain.cons (lt_of_le_of_ne hle (Ne.symm hx)) h1, fun v => ?_⟩
      rw [List.mem_cons, h2 v]; simp

/-- On a sorted vector `std::unique_copy` yields a strictly increasing vector with
the same elements. -/
theorem unique_copy_sorted (xs : List Int) (h : List.Sorted (fun a b => a ≤ b) xs) :
    List.Sorted (fun a b => a < b) (unique_copy xs) ∧ ∀ v, v ∈ unique_copy xs ↔ v ∈ xs := by
  cases xs with
  | nil => exact ⟨List.Pairwise.nil, fun v => Iff.rfl⟩
  | cons x xs =>
    have hch : List.Chain (fun a b => a ≤ b) x xs := List.chain_iff_pairwise.mpr h
    obtain ⟨h1, h2⟩ := unique_copy_from_spec xs x hch
    exact ⟨List.chain_iff_pairwise.mp h1, h2⟩

/-- What an accepted run of `read_generations` returns: the first integers of the
lines, and the sorted sample times in front of the old `gen_sampled`. -/
theorem read_generations_ok (fs : String → Option (List Char)) (fname : String)
    (gen_sampled : List Int) (content : List Char) (generations gs : List Int)
    (hopen : fs fname = some content)
    (h : read_generations fs fname gen_sampled = .ok (generations, gs)) :
    generations = (getlines content).filterMap firstInt ∧
      gs = unique_copy (generations.insertionSort (fun a b => a ≤ b)) ++ gen_sampled := by
  unfold read_generations at h
  simp only [hopen] at h
  cases h1 : read_generations_lines fname (getlines content) [] with
  | error e => simp [h1] at h
  | ok gens1 =>
    simp only [h1, Except.ok.injEq, Prod.mk.injEq] at h
    obtain ⟨rfl, rfl⟩ := h
    have := read_generations_lines_ok _ _ _ _ h1
    simp only [List.nil_append] at this
    exact ⟨this, rfl⟩

theorem read_generations_opened (fs : String → Option (List Char)) (fname : String)
    (gen_sampled : List Int) (r : List Int × List Int)
    (h : read_generations fs fname gen_sampled = .ok r) : ∃ content, fs fname = some content := by
  unfold read_generations at h
  cases h1 : fs fname with
  | none => simp [h1] at h
  | some content => exact ⟨content, rfl⟩

/-- C1 (`read_generations`, per-line sequence preserved): if every line of the
generation file holds exactly one integer -- `vals` lists, line by line, the integer
held -- then `read_generations` returns, and the vector returned is `vals`: one entry
per line, the i-th entry being the integer on the i-th line. -/
theorem read_generations_preserves_sequence (fs : String → Option (List Char))
    (fname : String) (gen_sampled : List Int) (content : List Char) (vals : List Int)
    (hopen : fs fname = some content)
    (hlines : List.Forall₂ holdsOneInteger (getlines content) vals) :
    read_generations fs fname gen_sampled =
        .ok (vals, unique_copy (vals.insertionSort (fun a b => a ≤ b)) ++ gen_sampled) ∧
      vals.length = (getlines content).length := by
  refine ⟨?_, hlines.length_eq.symm⟩
  unfold read_generations
  simp only [hopen]
  rw [read_generations_lines_of_holds fname _ vals hlines []]
  rfl

theorem holdsOneInteger_digit (d : Char) (hd : isdigit d = true) :
    holdsOneInteger [d] (digitVal d : Int) := by
  have hb : digitVal d ≤ 9 := by
    unfold isdigit at hd
    unfold digitVal
    have := of_decide_eq_true hd
    have e0 : '0'.toNat = 48 := rfl
    have e9 : '9'.toNat = 57 := rfl
    omega
  refine ⟨[], [], [d], [], rfl, by simp, by simp, by simp, by simpa using hd, ?_, ?_, ?_⟩
  · left; exact ⟨Or.inl rfl, by simp [digitsValue]⟩
  · unfold INT_MIN; omega
  · unfold INT_MAX; omega

/-- Witness for C1: the generation file with the lines 3, 1, 3, 2. -/
theorem read_generations_preserves_sequence_witness :
    fsDemo "gen" = some "3\n1\n3\n2\n".toList ∧
      List.Forall₂ holdsOneInteger (getlines "3\n1\n3\n2\n".toList) [3, 1, 3, 2] ∧
      (read_generations fsDemo "gen" [] =
          .ok ([3, 1, 3, 2],
            unique_copy (([3, 1, 3, 2] : List Int).insertionSort (fun a b => a ≤ b)) ++ []) ∧
        ([3, 1, 3, 2] : List Int).length = (getlines "3\n1\n3\n2\n".toList).length) :=
  have hl : List.Forall₂ holdsOneInteger (getlines "3\n1\n3\n2\n".toList) [3, 1, 3, 2] :=
    List.Forall₂.cons (holdsOneInteger_digit '3' (by decide))
      (List.Forall₂.cons (holdsOneInteger_digit '1' (by decide))
        (List.Forall₂.cons (holdsOneInteger_digit '3' (by decide))
          (List.Forall₂.cons (holdsOneInteger_digit '2' (by decide)) List.Forall₂.nil)))
  ⟨by decide, hl,
    read_generations_preserves_sequence fsDemo "gen" [] "3\n1\n3\n2\n".toList [3, 1, 3, 2]
      (by decide) hl⟩

/-- Sorting and then `std::unique_copy` yields a strictly increasing vector with the
members of the original vector. -/
theorem unique_copy_sort_spec (generations : List Int) :
    List.Sorted (fun a b => a < b)
        (unique_copy (generations.insertionSort (fun a b => a ≤ b))) ∧
      ∀ v, v ∈ unique_copy (generations.insertionSort (fun a b => a ≤ b)) ↔
        v ∈ generations := by
  obtain ⟨h1, h2⟩ := unique_copy_sorted _
    (List.sorted_insertionSort (fun a b : Int => a ≤ b) generations)
  refine ⟨h1, fun v => ?_⟩
  rw [h2 v]
  exact (List.perm_insertionSort _ generations).mem_iff

/-- C2 (`read_generations`, unique sorted sample times): for every accepted generation
file, with `gen_sampled` empty on entry, `gen_sampled` is strictly increasing on
return and holds exactly the values that occur in the returned vector. -/
theorem read_generations_gen_sampled_sorted_unique (fs : String → Option (List Char))
    (fname : String) (generations gs : List Int)
    (h : read_generations fs fname [] = .ok (generations, gs)) :
    List.Sorted (fun a b => a < b) gs ∧ ∀ v, v ∈ gs ↔ v ∈ generations := by
  obtain ⟨content, hopen⟩ := read_generations_opened _ _ _ _ h
  obtain ⟨_, rfl⟩ := read_generations_ok _ _ _ _ _ _ hopen h
  rw [List.append_nil]
  exact unique_copy_sort_spec generations

/-- Witness for C2: the lines 3, 1, 3, 2 give the sample times 1, 2, 3. -/
theorem read_generations_gen_sampled_sorted_unique_witness :
    read_generations fsDemo "gen" [] = .ok ([3, 1, 3, 2], [1, 2, 3]) ∧
      (List.Sorted (fun a b => a < b) ([1, 2, 3] : List Int) ∧
        ∀ v, v ∈ ([1, 2, 3] : List Int) ↔ v ∈ ([3, 1, 3, 2] : List Int)) :=
  ⟨by decide,
    read_generations_gen_sampled_sorted_unique fsDemo "gen" [3, 1, 3, 2] [1, 2, 3]
      (by decide)⟩

/-- C7 as stated fails: the generation file with the three lines "3", "" and "1" is
accepted, and the vector returned has two entries. -/
theorem read_generations_blank_line_accepted :
    fsDemo "gen_blank" = some "3\n\n1\n".toList ∧
      (getlines "3\n\n1\n".toList).length = 3 ∧
      read_generations fsDemo "gen_blank" [] = .ok ([3, 1], [1, 3]) := by
  decide

/-- C7, amended (`read_generations`, entries per line): for every accepted generation
file the returned vector consists, in file order, of the first integer of every
line from which an integer can be extracted; a line without one (a blank line,
say) contributes no entry. So the vector has at most one entry per line. -/
theorem read_generations_entries_per_line (fs : String → Option (List Char))
    (fname : String) (gen_sampled : List Int) (content : List Char)
    (generations gs : List Int) (hopen : fs fname = some content)
    (h : read_generations fs fname gen_sampled = .ok (generations, gs)) :
    generations = (getlines content).filterMap firstInt ∧
      generations.length ≤ (getlines content).length := by
  obtain ⟨h1, _⟩ := read_generations_ok _ _ _ _ _ _ hopen h
  refine ⟨h1, ?_⟩
  rw [h1]
  exact List.length_filterMap_le _ _

/-- Witness for the amended C7: the file with the lines "3", "" and "1". -/
theorem read_generations_entries_per_line_witness :
    fsDemo "gen_blank" = some "3\n\n1\n".toList ∧
      read_generations fsDemo "gen_blank" [] = .ok ([3, 1], [1, 3]) ∧
      (([3, 1] : List Int) = (getlines "3\n\n1\n".toList).filterMap firstInt ∧
        ([3, 1] : List Int).length ≤ (getlines "3\n\n1\n".toList).length) :=
  ⟨by decide, by decide,
    read_generations_entries_per_line fsDemo "gen_blank" [] "3\n\n1\n".toList [3, 1] [1, 3]
      (by decide) (by decide)⟩

/-! ## Properties of `check_input_file` -/

theorem atoi_single (c : Char) :
    atoi [c] = if isdigit c = true then (digitVal c : Int) else 0 := by
  unfold atoi
  by_cases hs : isspace c = true
  · have hd : isdigit c = false := by
      cases hd : isdigit c with
      | false => rfl
      | true => rw [isdigit_not_isspace hd] at hs; cases hs
    simp [List.dropWhile, hs, hd, takeSign, digitsValue]
  · have hs' : isspace c = false := by simpa using hs
    by_cases hm : c = '-'
    · subst hm; decide
    · by_cases hp : c = '+'
      · subst hp; decide
      · by_cases hd : isdigit c = true
        · simp [List.dropWhile, hs', takeSign, hm, hp, List.takeWhile, hd, digitsValue]
        · have hd' : isdigit c = false := by simpa using hd
          simp [List.dropWhile, hs', takeSign, hm, hp, List.takeWhile, hd', digitsValue]

theorem validCode_of_mem {c : Char} (h : c ∈ ['0', '1', '2', '9']) : validCode (atoi [c]) := by
  simp only [List.mem_cons, List.mem_singleton, List.not_mem_nil, or_false] at h
  rcases h with rfl | rfl | rfl | rfl <;> decide

theorem not_validCode_of_mem {c : Char} (h : c ∈ ['3', '4', '5', '6', '7', '8']) :
    ¬ validCode (atoi [c]) ∧ isspace c = false := by
  simp only [List.mem_cons, List.mem_singleton, List.not_mem_nil, or_false] at h
  rcases h with rfl | rfl | rfl | rfl | rfl | rfl <;> decide

theorem entries_cons_space {c : Char} (l : List Char) (h : isspace c = true) :
    entries (c :: l) = entries l := by
  simp [entries, List.filter, h]

theorem entries_cons_nonspace {c : Char} (l : List Char) (h : isspace c = false) :
    entries (c :: l) = c :: entries l := by
  simp [entries, List.filter, h]

theorem mem_entries {c : Char} {l : List Char} : c ∈ entries l ↔ c ∈ l ∧ isspace c = false := by
  simp [entries, List.mem_filter]

/-- A row passes the inner loop of `check_input_file` exactly when all its entries
have a valid code, and then `col_count` has grown by the number of entries. -/
theorem check_input_row_ok (fname : String) (locus_count : Nat) (line : List Char) :
    ∀ (col_count nonmissing : Nat), (∀ c ∈ entries line, validCode (atoi [c])) →
      ∃ nonmissing', check_input_row fname locus_count line col_count nonmissing =
        .ok (col_count + (entries line).length, nonmissing') := by
  induction line with
  | nil => intro col nm _; exact ⟨nm, rfl⟩
  | cons ch iss ih =>
    intro col nm h
    rw [check_input_row]
    by_cases hs : isspace ch = true
    · rw [entries_cons_space _ hs] at h ⊢
      simp only [hs, if_true]
      exact ih col nm h
    · have hs' : isspace ch = false := by simpa using hs
      rw [entries_cons_nonspace _ hs'] at h ⊢
      have hv : validCode (atoi [ch]) := h ch (List.mem_cons_self _ _)
      have hv' : atoi [ch] = 0 ∨ atoi [ch] = 1 ∨ atoi [ch] = 2 ∨ atoi [ch] = 9 := hv
      simp only [hs', Bool.false_eq_true, if_false, hv', not_true_eq_false]
      obtain ⟨nm', e⟩ := ih (col + 1) _ (fun c hc => h c (List.mem_cons_of_mem _ hc))
      refine ⟨nm', ?_⟩
      rw [e, List.length_cons]
      congr 2
      omega

/-- When the inner loop of `check_input_file` passes a row, all entries of the row
have a valid code and `col_count` has grown by the number of entries. -/
theorem check_input_row_ok_inv (fname : String) (locus_count : Nat) (line : List Char) :
    ∀ (col_count nonmissing col_count' nonmissing' : Nat),
      check_input_row fname locus_count line col_count nonmissing =
        .ok (col_count', nonmissing') →
      col_count' = col_count + (entries line).length ∧
        ∀ c ∈ entries line, validCode (atoi [c]) := by
  induction line with
  | nil =>
    intro col nm col' nm' h
    simp only [check_input_row, Except.ok.injEq, Prod.mk.injEq] at h
    simp [entries, h.1]
  | cons ch iss ih =>
    intro col nm col' nm' h
    rw [check_input_row] at h
    by_cases hs : isspace ch = true
    · rw [entries_cons_space _ hs]
      simp only [hs, if_true] at h
      exact ih _ _ _ _ h
    · have hs' : isspace ch = false := by simpa using hs
      rw [entries_cons_nonspace _ hs']
      simp only [hs', Bool.false_eq_true, if_false] at h
      by_cases hv : atoi [ch] = 0 ∨ atoi [ch] = 1 ∨ atoi [ch] = 2 ∨ atoi [ch] = 9
      · simp only [hv, not_true_eq_false, if_false] at h
        obtain ⟨h1, h2⟩ := ih _ _ _ _ h
        refine ⟨by rw [h1, List.length_cons]; omega, fun c hc => ?_⟩
        rcases List.mem_cons.mp hc with rfl | hc
        · exact hv
        · exact h2 c hc
      · simp [hv] at h

/-- The only failure of the inner loop of `check_input_file` is the invalid-entry
error; the column it cites is `col_count` plus the 1-based position of the first
entry with an invalid code, plus one. -/
theorem check_input_row_error (fname : String) (locus_count : Nat) (line : List Char) :
    ∀ (col_count nonmissing : Nat) (e : Failure),
      check_input_row fname locus_count line col_count nonmissing = .error e →
      ∃ k, ∃ hk : k < (entries line).length,
        ¬ validCode (atoi [(entries line)[k]]) ∧
        (∀ j, ∀ hj : j < (entries line).length, j < k → validCode (atoi [(entries line)[j]])) ∧
        e = .invalidEntry fname locus_count (col_count + (k + 1) + 1) := by
  induction line with
  | nil => intro col nm e h; simp [check_input_row] at h
  | cons ch iss ih =>
    intro col nm e h
    rw [check_input_row] at h
    by_cases hs : isspace ch = true
    · simp only [hs, if_true] at h
      simp only [entries_cons_space _ hs]
      exact ih _ _ _ h
    · have hs' : isspace ch = false := by simpa using hs
      simp only [hs', Bool.false_eq_true, if_false] at h
      simp only [entries_cons_nonspace _ hs']
      by_cases hv : atoi [ch] = 0 ∨ atoi [ch] = 1 ∨ atoi [ch] = 2 ∨ atoi [ch] = 9
      · simp only [hv, not_true_eq_false, if_false] at h
        obtain ⟨k, hk, h1, h2, h3⟩ := ih _ _ _ h
        refine ⟨k + 1, by simpa using hk, by simpa using h1, ?_, ?_⟩
        · intro j hj hjk
          cases j with
          | zero => exact hv
          | succ j => simpa using h2 j (by simpa using hj) (by omega)
        · rw [h3]; congr 1; omega
      · simp only [hv, not_false_eq_true, if_true, Except.error.injEq] at h
        refine ⟨0, by simp, hv, ?_, ?_⟩
        · intro j _ hj; omega
        · rw [← h]

/-- The row conditions under which `check_input_file` lets a line pass: it has
`n_columns` entries and every entry has a valid code. -/
theorem check_input_lines_ok (fname : String) (n_columns : Int) (lines : List (List Char)) :
    ∀ (locus_count : Nat) (warnings : List Warning),
      (∀ line ∈ lines, ((entries line).length : Int) = n_columns ∧
        ∀ c ∈ entries line, validCode (atoi [c])) →
      ∃ warnings', check_input_lines fname n_columns lines locus_count warnings =
        .ok (locus_count + lines.length, warnings') := by
  induction lines with
  | nil => intro lc w _; exact ⟨w, rfl⟩
  | cons line rest ih =>
    intro lc w h
    obtain ⟨hn, hv⟩ := h line (List.mem_cons_self _ _)
    obtain ⟨nm, hrow⟩ := check_input_row_ok fname (lc + 1) line 0 0 hv
    rw [check_input_lines]
    simp only [hrow, Nat.zero_add, ne_eq, hn, not_true_eq_false, if_false]
    obtain ⟨w', e⟩ := ih (lc + 1) _ (fun l hl => h l (List.mem_cons_of_mem _ hl))
    refine ⟨w', ?_⟩
    rw [e, List.length_cons]
    congr 2
    omega

/-- When `check_input_file` lets all lines pass, the count of loci has grown by the
number of lines, and every line has `n_columns` entries, all with a valid code. -/
theorem check_input_lines_ok_inv (fname : String) (n_columns : Int)
    (lines : List (List Char)) :
    ∀ (locus_count : Nat) (warnings : List Warning) (r : Nat × List Warning),
      check_input_lines fname n_columns lines locus_count warnings = .ok r →
      r.1 = locus_count + lines.length ∧
        ∀ line ∈ lines, ((entries line).length : Int) = n_columns ∧
          ∀ c ∈ entries line, validCode (atoi [c]) := by
  induction lines with
  | nil =>
    intro lc w r h
    simp only [check_input_lines, Except.ok.injEq] at h
    simp [← h]
  | cons line rest ih =>
    intro lc w r h
    rw [check_input_lines] at h
    cases hrow : check_input_row fname (lc + 1) line 0 0 with
    | error e => simp [hrow] at h
    | ok p =>
      obtain ⟨col, nm⟩ := p
      obtain ⟨hcol, hv⟩ := check_input_row_ok_inv _ _ _ _ _ _ _ hrow
      simp only [hrow, ne_eq] at h
      by_cases hn : (col : Int) = n_columns
      · simp only [hn, not_true_eq_false, if_false] at h
        obtain ⟨h1, h2⟩ := ih _ _ _ h
        refine ⟨by rw [h1, List.length_cons]; omega, fun l hl => ?_⟩
        rcases List.mem_cons.mp hl with rfl | hl
        · refine ⟨?_, hv⟩
          rw [← hn, hcol, Nat.zero_add]
        · exact h2 l hl
      · simp [hn] at h

/-- Every failure of the line loop of `check_input_file` is a fatal input error. -/
theorem check_input_lines_error (fname : String) (n_columns : Int)
    (lines : List (List Char)) :
    ∀ (locus_count : Nat) (warnings : List Warning) (e : Failure),
      check_input_lines fname n_columns lines locus_count warnings = .error e →
      e.isInputError = true := by
  induction lines with
  | nil => intro lc w e h; simp [check_input_lines] at h
  | cons line rest ih =>
    intro lc w e h
    rw [check_input_lines] at h
    cases hrow : check_input_row fname (lc + 1) line 0 0 with
    | error e' =>
      simp only [hrow, Except.error.injEq] at h
      obtain ⟨k, _, _, _, rfl⟩ := check_input_row_error _ _ _ _ _ _ hrow
      rw [← h]; rfl
    | ok p =>
      obtain ⟨col, nm⟩ := p
      simp only [hrow, ne_eq] at h
      by_cases hn : (col : Int) = n_columns
      · simp only [hn, not_true_eq_false, if_false] at h
        exact ih _ _ _ h
      · simp only [hn, not_false_eq_true, if_true, Except.error.injEq] at h
        rw [← h]; rfl

/-- What an accepted run of `check_input_file` means: the value returned is the number
of lines, and every line has `n_columns` entries, all with a valid code. -/
theorem check_input_file_ok_inv (fs : String → Option (List Char)) (fname : String)
    (nloci n_columns : Int) (content : List Char) (r : Nat × List Warning)
    (hopen : fs fname = some content)
    (h : check_input_file fs fname nloci n_columns = .ok r) :
    r.1 = (getlines content).length ∧
      ∀ line ∈ getlines content, ((entries line).length : Int) = n_columns ∧
        ∀ c ∈ entries line, validCode (atoi [c]) := by
  unfold check_input_file at h
  simp only [hopen] at h
  cases h1 : check_input_lines fname n_columns (getlines content) 0 [] with
  | error e => simp [h1] at h
  | ok p =>
    obtain ⟨h2, h3⟩ := check_input_lines_ok_inv _ _ _ _ _ _ h1
    simp only [h1, Except.ok.injEq] at h
    refine ⟨?_, h3⟩
    rw [← h]
    simpa using h2

/-- A file that can be opened and that `check_input_file` does not accept ends in a
fatal input error. -/
theorem check_input_file_error (fs : String → Option (List Char)) (fname : String)
    (nloci n_columns : Int) (content : List Char) (hopen : fs fname = some content)
    (h : ∀ r, check_input_file fs fname nloci n_columns ≠ .ok r) :
    ∃ e, check_input_file fs fname nloci n_columns = .error e ∧ e.isInputError = true := by
  unfold check_input_file at h ⊢
  simp only [hopen] at h ⊢
  cases h1 : check_input_lines fname n_columns (getlines content) 0 [] with
  | error e => exact ⟨e, rfl, check_input_lines_error _ _ _ _ _ _ h1⟩
  | ok p => simp [h1] at h

/-- C3 as stated fails: the row "01 2 9" contains the token "01", which is not one of
0, 1, 2, 9, and `check_input_file` accepts the file for four samples: it reads the
row character by character. -/
theorem check_input_file_accepts_joined_token :
    fsDemo "geno_joined" = some "01 2 9\n".toList ∧
      getlines "01 2 9\n".toList = ["01 2 9".toList] ∧
      tokens "01 2 9".toList = [['0', '1'], ['2'], ['9']] ∧
      (['0', '1'] : List Char) ∉ [['0'], ['1'], ['2'], ['9']] ∧
      check_input_file fsDemo "geno_joined" 1 4 = .ok (1, []) := by
  decide

/-- C3, amended (`check_input_file`, invalid codes): rows are read character by
character; if some row contains one of the characters 3, 4, 5, 6, 7, 8 (alone or
inside a longer token), `check_input_file` ends in a fatal input error and returns
no locus count. -/
theorem check_input_file_rejects_invalid_digit (fs : String → Option (List Char))
    (fname : String) (nloci n_columns : Int) (content : List Char)
    (hopen : fs fname = some content)
    (hbad : ∃ line ∈ getlines content, ∃ c ∈ line, c ∈ ['3', '4', '5', '6', '7', '8']) :
    ∃ e, check_input_file fs fname nloci n_columns = .error e ∧ e.isInputError = true := by
  apply check_input_file_error fs fname nloci n_columns content hopen
  intro r hr
  obtain ⟨line, hline, c, hc, hc6⟩ := hbad
  obtain ⟨hinv, hsp⟩ := not_validCode_of_mem hc6
  obtain ⟨_, h2⟩ := check_input_file_ok_inv _ _ _ _ _ _ hopen hr
  exact hinv ((h2 line hline).2 c (mem_entries.mpr ⟨hc, hsp⟩))

/-- Witness for the amended C3: the genotype file whose second row starts with 5. -/
theorem check_input_file_rejects_invalid_digit_witness :
    fsDemo "geno_five" = some "0 1 2 9\n5 1 0 2\n".toList ∧
      (∃ line ∈ getlines "0 1 2 9\n5 1 0 2\n".toList,
        ∃ c ∈ line, c ∈ ['3', '4', '5', '6', '7', '8']) ∧
      ∃ e, check_input_file fsDemo "geno_five" 2 4 = .error e ∧ e.isInputError = true :=
  have hbad : ∃ line ∈ getlines "0 1 2 9\n5 1 0 2\n".toList,
      ∃ c ∈ line, c ∈ ['3', '4', '5', '6', '7', '8'] :=
    ⟨"5 1 0 2".toList, by decide, '5', by decide, by decide⟩
  ⟨by decide, hbad,
    check_input_file_rejects_invalid_digit fsDemo "geno_five" 2 4
      "0 1 2 9\n5 1 0 2\n".toList (by decide) hbad⟩

/-- C4 (`check_input_file`, column count): if some line of the genotype file has a
number of entries (non-whitespace characters, as the rows are read) different
from `n_columns`, `check_input_file` ends in a fatal input error and returns no
locus count. -/
theorem check_input_file_rejects_column_count (fs : String → Option (List Char))
    (fname : String) (nloci n_columns : Int) (content : List Char)
    (hopen : fs fname = some content)
    (hbad : ∃ line ∈ getlines content, ((entries line).length : Int) ≠ n_columns) :
    ∃ e, check_input_file fs fname nloci n_columns = .error e ∧ e.isInputError = true := by
  apply check_input_file_error fs fname nloci n_columns content hopen
  intro r hr
  obtain ⟨line, hline, hne⟩ := hbad
  obtain ⟨_, h2⟩ := check_input_file_ok_inv _ _ _ _ _ _ hopen hr
  exact hne (h2 line hline).1

/-- Witness for C4: a second row with three entries where four samples are expected. -/
theorem check_input_file_rejects_column_count_witness :
    fsDemo "geno_short" = some "0 1 2 9\n1 1 0\n".toList ∧
      (∃ line ∈ getlines "0 1 2 9\n1 1 0\n".toList, ((entries line).length : Int) ≠ 4) ∧
      ∃ e, check_input_file fsDemo "geno_short" 2 4 = .error e ∧ e.isInputError = true :=
  have hbad : ∃ line ∈ getlines "0 1 2 9\n1 1 0\n".toList,
      ((entries line).length : Int) ≠ 4 :=
    ⟨"1 1 0".toList, by decide, by decide⟩
  ⟨by decide, hbad,
    check_input_file_rejects_column_count fsDemo "geno_short" 2 4
      "0 1 2 9\n1 1 0\n".toList (by decide) hbad⟩

/-- The location cited by the invalid-entry error of the line loop: the line is the
first line with an entry of invalid code, counted from `locus_count + 1`, and the
column is the 1-based position of the first such entry in that line, plus one. -/
theorem check_input_lines_invalidEntry (fname : String) (n_columns : Int)
    (lines : List (List Char)) :
    ∀ (locus_count : Nat) (warnings : List Warning) (f : String) (ln col : Nat),
      check_input_lines fname n_columns lines locus_count warnings =
        .error (.invalidEntry f ln col) →
      ∃ idx line k, lines[idx]? = some line ∧ ln = locus_count + idx + 1 ∧
        (∃ hk : k < (entries line).length, ¬ validCode (atoi [(entries line)[k]])) ∧
        (∀ j, ∀ hj : j < (entries line).length, j < k → validCode (atoi [(entries line)[j]])) ∧
        col = (k + 1) + 1 ∧
        ∀ i earlier, i < idx → lines[i]? = some earlier →
          ∀ c ∈ entries earlier, validCode (atoi [c]) := by
  induction lines with
  | nil => intro lc w f ln col h; simp [check_input_lines] at h
  | cons line rest ih =>
    intro lc w f ln col h
    rw [check_input_lines] at h
    cases hrow : check_input_row fname (lc + 1) line 0 0 with
    | error e =>
      simp only [hrow, Except.error.injEq] at h
      obtain ⟨k, hk, h1, h2, h3⟩ := check_input_row_error _ _ _ _ _ _ hrow
      rw [h] at h3
      simp only [Failure.invalidEntry.injEq] at h3
      obtain ⟨_, rfl, rfl⟩ := h3
      refine ⟨0, line, k, by simp, rfl, ⟨hk, h1⟩, h2, by omega, ?_⟩
      intro i earlier hi
      omega
    | ok p =>
      obtain ⟨cols, nm⟩ := p
      obtain ⟨_, hv⟩ := check_input_row_ok_inv _ _ _ _ _ _ _ hrow
      simp only [hrow, ne_eq] at h
      by_cases hn : (cols : Int) = n_columns
      · simp only [hn, not_true_eq_false, if_false] at h
        obtain ⟨idx, line', k, h1, h2, h3, h4, h5, h6⟩ := ih _ _ _ _ _ h
        refine ⟨idx + 1, line', k, by simpa using h1, by omega, h3, h4, h5, ?_⟩
        intro i earlier hi he
        cases i with
        | zero =>
          simp only [List.getElem?_cons_zero, Option.some.injEq] at he
          subst he
          exact hv
        | succ i =>
          exact h6 i earlier (by omega) (by simpa using he)
      · simp [hn] at h

/-- C6 (`check_input_file`, location cited): in the file whose second row is "5 1 0 2"
the first invalid entry is the first entry of line 2, and the error cites line 2,
column 2. -/
theorem check_input_file_cites_next_column :
    fsDemo "geno_five" = some "0 1 2 9\n5 1 0 2\n".toList ∧
      (getlines "0 1 2 9\n5 1 0 2\n".toList)[1]? = some "5 1 0 2".toList ∧
      (entries "5 1 0 2".toList)[0]? = some '5' ∧
      check_input_file fsDemo "geno_five" 2 4 = .error (.invalidEntry "geno_five" 2 2) := by
  decide

/-! ## Properties of the containers -/

theorem map_find_assign {β : Type} (m : IntMap β) (k : Int) (v : β) (k' : Int) :
    map_find (map_assign m k v) k' = if k' = k then some v else map_find m k' := by
  induction m with
  | nil => simp [map_assign, map_find]
  | cons p rest ih =>
    obtain ⟨k0, v0⟩ := p
    rw [map_assign]
    by_cases h1 : k < k0
    · simp only [h1, if_true]
      rw [map_find]
    · simp only [h1, if_false]
      by_cases h2 : k = k0
      · subst h2
        simp only [if_true]
        rw [map_find, map_find]
        by_cases h3 : k' = k <;> simp [h3]
      · simp only [h2, if_false]
        rw [map_find, map_find, ih]
        by_cases h3 : k' = k0
        · subst h3
          have : ¬ k' = k := fun h => h2 h.symm
          simp [this]
        · simp [h3]

theorem map_at_assign (m : IntMap Nat) (k : Int) (v : Nat) (k' : Int) :
    map_at (map_assign m k v) k' = if k' = k then v else map_at m k' := by
  unfold map_at
  rw [map_find_assign]
  by_cases h : k' = k <;> simp [h]

theorem write3_eq_none_iff (snps : Snps) (t d l : Nat) (v : Int) :
    write3 snps t d l v = none ↔ read3 snps t d l = none := by
  unfold write3 read3
  cases h1 : snps[t]? with
  | none => simp
  | some mat =>
    simp only
    cases h2 : mat[d]? with
    | none => simp
    | some row =>
      simp only [ite_eq_right_iff, reduceCtorEq, imp_false, not_lt]
      exact List.getElem?_eq_none_iff.symm

/-- After the assignment `snps[t][d][l] = v` the element written holds `v` and all
other elements are as before. -/
theorem read3_write3 (snps snps' : Snps) (t d l : Nat) (v : Int)
    (h : write3 snps t d l v = some snps') (t' d' l' : Nat) :
    read3 snps' t' d' l' =
      if t' = t ∧ d' = d ∧ l' = l then some v else read3 snps t' d' l' := by
  unfold write3 at h
  cases h1 : snps[t]? with
  | none => simp [h1] at h
  | some mat =>
    cases h2 : mat[d]? with
    | none => simp [h1, h2] at h
    | some row =>
      simp only [h1, h2] at h
      by_cases hl : l < row.length
      · simp only [hl, if_true, Option.some.injEq] at h
        subst h
        have ht : t < snps.length := (List.getElem?_eq_some_iff.mp h1).1
        have hd : d < mat.length := (List.getElem?_eq_some_iff.mp h2).1
        unfold read3
        by_cases e1 : t' = t
        · subst e1
          rw [List.getElem?_set_self ht, h1]
          simp only
          by_cases e2 : d' = d
          · subst e2
            rw [List.getElem?_set_self hd, h2]
            simp only
            by_cases e3 : l' = l
            · subst e3
              rw [List.getElem?_set_self hl]
              simp
            · rw [List.getElem?_set_ne (Ne.symm e3)]
              simp [e3]
          · rw [List.getElem?_set_ne (Ne.symm e2)]
            simp [e2]
        · rw [List.getElem?_set_ne (Ne.symm e1)]
          simp [e1]
      · simp [hl] at h

theorem read3_write3_isSome (snps snps' : Snps) (t d l : Nat) (v : Int)
    (h : write3 snps t d l v = some snps') (t' d' l' : Nat) :
    (read3 snps' t' d' l').isSome = (read3 snps t' d' l').isSome := by
  rw [read3_write3 snps snps' t d l v h]
  by_cases e : t' = t ∧ d' = d ∧ l' = l
  · obtain ⟨rfl, rfl, rfl⟩ := e
    have hn : read3 snps t' d' l' ≠ none := by
      intro hn
      rw [(write3_eq_none_iff snps t' d' l' v).mpr hn] at h
      cases h
    cases hr : read3 snps t' d' l' with
    | none => exact absurd hr hn
    | some x => simp
  · simp [e]

/-- The elements of the freshly allocated genotype store: time step `t` has as many
rows as there are samples of generation `gen_sampled[t]`, each with `nloci` zeros. -/
theorem read3_alloc (generations gen_sampled : List Int) (nloci t d l : Nat) :
    read3 (gen_sampled.map (fun g => zeros (generations.count g) nloci)) t d l =
      match gen_sampled[t]? with
      | none => none
      | some g => if d < generations.count g ∧ l < nloci then some 0 else none := by
  unfold read3
  rw [List.getElem?_map]
  cases h1 : gen_sampled[t]? with
  | none => rfl
  | some g =>
    simp only [Option.map_some']
    unfold zeros
    rw [List.getElem?_replicate]
    by_cases hd : d < generations.count g
    · simp only [hd, if_true, true_and]
      rw [List.getElem?_replicate]
    · simp [hd]

/-! ## Properties of `read_snp_matrix` -/

theorem take_succ_cons_append (pre suf : List Int) (gen : Int) (k : Nat) :
    pre ++ (gen :: suf).take (k + 1) = (pre ++ [gen]) ++ suf.take k := by
  simp

/-- The inner fill loop on one line, started at column `pre.length` with the samples
`suf` still to come: if the line has as many entries left as there are samples and
the cells to be written exist, the loop succeeds, stores the numeric value of every
entry at the cell of its sample, changes no other cell, and keeps the extents. -/
theorem fill_row_spec (G S : List Int) (hGS : ∀ g ∈ G, g ∈ S) (l : Nat) (iss : List Char) :
    ∀ (pre suf : List Int) (m : IntMap Nat) (snps : Snps),
      G = pre ++ suf →
      (entries iss).length = suf.length →
      (∀ g, map_at m g = pre.count g) →
      (∀ k g, suf[k]? = some g →
        (read3 snps (S.indexOf g) ((pre ++ suf.take k).count g) l).isSome = true) →
      ∃ snps', fill_row G S l iss pre.length m snps = .ok snps' ∧
        (∀ k g c, suf[k]? = some g → (entries iss)[k]? = some c →
          read3 snps' (S.indexOf g) ((pre ++ suf.take k).count g) l = some (atoi [c])) ∧
        (∀ t d l', (∀ k g, suf[k]? = some g →
            ¬ (t = S.indexOf g ∧ d = (pre ++ suf.take k).count g ∧ l' = l)) →
          read3 snps' t d l' = read3 snps t d l') ∧
        (∀ t d l', (read3 snps' t d l').isSome = (read3 snps t d l').isSome) := by
  induction iss with
  | nil =>
    intro pre suf m snps _ hlen _ _
    refine ⟨snps, rfl, ?_, fun _ _ _ _ => rfl, fun _ _ _ => rfl⟩
    intro k g c _ hc
    simp [entries] at hc
  | cons ch iss ih =>
    intro pre suf m snps hG hlen hm hdom
    rw [fill_row]
    by_cases hs : isspace ch = true
    · simp only [hs, if_true]
      simp only [entries_cons_space _ hs] at hlen ⊢
      exact ih pre suf m snps hG hlen hm hdom
    · have hs' : isspace ch = false := by simpa using hs
      simp only [hs', Bool.false_eq_true, if_false]
      rw [entries_cons_nonspace _ hs'] at hlen ⊢
      cases suf with
      | nil => simp at hlen
      | cons gen suf' =>
        have hGi : G[pre.length]? = some gen := by
          rw [hG, List.getElem?_append_right (le_refl _)]; simp
        have hgen : gen ∈ S := hGS gen (by rw [hG]; simp)
        have hd0 : (read3 snps (S.indexOf gen) (pre.count gen) l).isSome = true := by
          simpa using hdom 0 gen (by simp)
        simp only [hGi, hm gen]
        cases hw : write3 snps (S.indexOf gen) (pre.count gen) l (atoi [ch]) with
        | none =>
          rw [(write3_eq_none_iff _ _ _ _ _).mp hw] at hd0
          cases hd0
        | some snps1 =>
          simp only
          have hm' : ∀ g, map_at (map_assign m gen (pre.count gen + 1)) g =
              (pre ++ [gen]).count g := by
            intro g
            rw [map_at_assign, List.count_append, hm g]
            by_cases e : g = gen
            · subst e; simp
            · have e' : ¬ gen = g := fun h => e h.symm
              simp [e, List.count_cons, e']
          have hdom' : ∀ k g, suf'[k]? = some g →
              (read3 snps1 (S.indexOf g) (((pre ++ [gen]) ++ suf'.take k).count g) l).isSome
                = true := by
            intro k g hk
            rw [read3_write3_isSome _ _ _ _ _ _ hw, ← take_succ_cons_append]
            exact hdom (k + 1) g (by simpa using hk)
          have hlen' : (entries iss).length = suf'.length := by simpa using hlen
          obtain ⟨snps', hrun, ha, hb, hc⟩ :=
            ih (pre ++ [gen]) suf' _ snps1 (by simp [hG]) hlen' hm' hdom'
          rw [List.length_append, List.length_singleton] at hrun
          refine ⟨snps', hrun, ?_, ?_, ?_⟩
          · intro k g c hk hc'
            cases k with
            | zero =>
              simp only [List.getElem?_cons_zero, Option.some.injEq] at hk hc'
              subst hk
              subst hc'
              simp only [List.take_zero, List.append_nil]
              rw [hb]
              · rw [read3_write3 _ _ _ _ _ _ hw]; simp
              · intro k g hk hcell
                obtain ⟨h1, h2, _⟩ := hcell
                have hg : g ∈ S := hGS g (by
                  rw [hG]
                  have := List.getElem?_mem hk
                  simp [this])
                have e : gen = g := (List.indexOf_inj hgen hg).mp h1
                subst e
                rw [List.count_append, List.count_append] at h2
                simp only [List.count_singleton_self] at h2
                omega
            | succ k =>
              simp only [List.getElem?_cons_succ] at hk hc'
              rw [take_succ_cons_append]
              exact ha k g c hk hc'
          · intro t d l' hfree
            rw [hb, read3_write3 _ _ _ _ _ _ hw]
            · have h0 := hfree 0 gen (by simp)
              simp only [List.take_zero, List.append_nil] at h0
              simp [h0]
            · intro k g hk
              rw [← take_succ_cons_append]
              exact hfree (k + 1) g (by simpa using hk)
          · intro t d l'
            rw [hc, read3_write3_isSome _ _ _ _ _ _ hw]

/-- The fill loop over the lines from locus `l` on: if the lines left are exactly those
up to `nloci`, every line has one entry per sample and the cells of all samples
exist, the loop succeeds and afterwards the cell of sample `k` at locus `l + j`
holds the numeric value of entry `k` of the `j`-th line left; cells of earlier
loci are unchanged and the extents are kept. -/
theorem fill_lines_spec (G S : List Int) (hGS : ∀ g ∈ G, g ∈ S) (nloci : Nat)
    (lines : List (List Char)) :
    ∀ (l : Nat) (snps : Snps),
      l + lines.length = nloci →
      (∀ line ∈ lines, (entries line).length = G.length) →
      (∀ k g l', G[k]? = some g → l' < nloci →
        (read3 snps (S.indexOf g) ((G.take k).count g) l').isSome = true) →
      ∃ snps', fill_lines G S nloci lines l snps = .ok snps' ∧
        (∀ j line k g c, lines[j]? = some line → G[k]? = some g →
          (entries line)[k]? = some c →
          read3 snps' (S.indexOf g) ((G.take k).count g) (l + j) = some (atoi [c])) ∧
        (∀ t d l', l' < l → read3 snps' t d l' = read3 snps t d l') ∧
        (∀ t d l', (read3 snps' t d l').isSome = (read3 snps t d l').isSome) := by
  induction lines with
  | nil =>
    intro l snps _ _ _
    refine ⟨snps, rfl, ?_, fun _ _ _ _ => rfl, fun _ _ _ => rfl⟩
    intro j line k g c hj
    simp at hj
  | cons line rest ih =>
    intro l snps hl hcols hdom
    have hll : l < nloci := by rw [← hl, List.length_cons]; omega
    obtain ⟨snps1, hrun, ha, hb, hc⟩ := fill_row_spec G S hGS l line [] G [] snps
      (by simp) (hcols line (List.mem_cons_self _ _)) (fun g => by simp [map_at, map_find])
      (fun k g hk => by simpa using hdom k g l hk hll)
    have hdom1 : ∀ k g l', G[k]? = some g → l' < nloci →
        (read3 snps1 (S.indexOf g) ((G.take k).count g) l').isSome = true := by
      intro k g l' hk hl'
      rw [hc]
      exact hdom k g l' hk hl'
    obtain ⟨snps', hrun', ha', hb', hc'⟩ := ih (l + 1) snps1
      (by rw [← hl, List.length_cons]; omega)
      (fun ln h => hcols ln (List.mem_cons_of_mem _ h)) hdom1
    have hstep : fill_lines G S nloci (line :: rest) l snps = .ok snps' := by
      rw [fill_lines]
      simp only [List.length_nil] at hrun
      simp only [hrun]
      by_cases hbreak : l + 1 = nloci
      · have hrest : rest = [] := by
          apply List.eq_nil_of_length_eq_zero
          rw [List.length_cons] at hl
          omega
        subst hrest
        simp only [hbreak, if_true]
        rw [fill_lines] at hrun'
        exact hrun'
      · simp only [hbreak, if_false]
        exact hrun'
    refine ⟨snps', hstep, ?_, ?_, ?_⟩
    · intro j ln k g c hj hk hc0
      cases j with
      | zero =>
        simp only [List.getElem?_cons_zero, Option.some.injEq] at hj
        subst hj
        rw [Nat.add_zero, hb' _ _ _ (Nat.lt_succ_self l)]
        simpa using ha k g c hk hc0
      | succ j =>
        simp only [List.getElem?_cons_succ] at hj
        have := ha' j ln k g c hj hk hc0
        rw [show l + (j + 1) = l + 1 + j by omega]
        exact this
    · intro t d l' hl'
      rw [hb' t d l' (by omega), hb t d l']
      intro k g _ hcell
      omega
    · intro t d l'
      rw [hc', hc]

/-- The loop that builds `sample_map`, started at column `pre.length` with the samples
`suf` still to come: afterwards the key `i` is mapped to the cell of sample `i`
for every column `i` of the generation vector, and no other key is present. -/
theorem build_sample_map_spec (G S : List Int) (suf : List Int) :
    ∀ (pre : List Int) (m : IntMap Nat) (sm : IntMap (Nat × Nat)),
      G = pre ++ suf →
      (∀ g, map_at m g = pre.count g) →
      (∀ z : Int, map_find sm z =
        if 0 ≤ z ∧ z < (pre.length : Int) then sampleSlot G S z.toNat else none) →
      ∀ z : Int, map_find (build_sample_map S suf pre.length m sm) z =
        if 0 ≤ z then sampleSlot G S z.toNat else none := by
  induction suf with
  | nil =>
    intro pre m sm hG _ hsm z
    rw [build_sample_map, hsm z]
    by_cases hz : 0 ≤ z
    · by_cases hz' : z < (pre.length : Int)
      · simp [hz, hz']
      · have : G.length ≤ z.toNat := by
          rw [hG, List.append_nil]; omega
        simp [hz, hz', sampleSlot, List.getElem?_eq_none this]
    · simp [hz]
  | cons gen suf' ih =>
    intro pre m sm hG hm hsm z
    rw [build_sample_map]
    have hm' : ∀ g, map_at (map_assign m gen (map_at m gen + 1)) g =
        (pre ++ [gen]).count g := by
      intro g
      rw [map_at_assign, List.count_append, hm g, hm gen]
      by_cases e : g = gen
      · subst e; simp
      · have e' : ¬ gen = g := fun h => e h.symm
        simp [e, List.count_cons, e']
    have hGi : G[pre.length]? = some gen := by
      rw [hG, List.getElem?_append_right (le_refl _)]; simp
    have htake : G.take pre.length = pre := by rw [hG, List.take_left]
    have hsm' : ∀ z : Int,
        map_find (map_assign sm (pre.length : Int) (S.indexOf gen, map_at m gen)) z =
          if 0 ≤ z ∧ z < ((pre ++ [gen]).length : Int) then sampleSlot G S z.toNat
          else none := by
      intro z
      rw [map_find_assign, hsm z, List.length_append, List.length_singleton]
      by_cases e : z = (pre.length : Int)
      · subst e
        simp [sampleSlot, hGi, htake, hm gen]
      · by_cases hz : 0 ≤ z
        · by_cases hz' : z < (pre.length : Int)
          · have : z < (pre.length : Int) + 1 := by omega
            simp [e, hz, hz', this]
          · have : ¬ z < (pre.length : Int) + 1 := by omega
            simp [e, hz, hz', this]
        · simp [e, hz]
    have := ih (pre ++ [gen]) _ _ (by simp [hG]) hm' hsm' z
    rw [List.length_append, List.length_singleton] at this
    exact this

/-- Every rank below the number of occurrences of `g` is the rank of some occurrence. -/
theorem exists_occurrence (g : Int) (G : List Int) :
    ∀ d, d < G.count g → ∃ k, G[k]? = some g ∧ (G.take k).count g = d := by
  induction G with
  | nil => intro d hd; simp at hd
  | cons x xs ih =>
    intro d hd
    by_cases e : x = g
    · subst e
      cases d with
      | zero => exact ⟨0, by simp, by simp⟩
      | succ d =>
        rw [List.count_cons_self] at hd
        obtain ⟨k, hk1, hk2⟩ := ih d (by omega)
        exact ⟨k + 1, by simpa using hk1, by simp [hk2]⟩
    · have e' : g ≠ x := fun h => e h.symm
      rw [List.count_cons_of_ne e'] at hd
      obtain ⟨k, hk1, hk2⟩ := ih d hd
      exact ⟨k + 1, by simpa using hk1, by simp [List.count_cons_of_ne e', hk2]⟩

theorem count_take_lt (G : List Int) (k : Nat) (g : Int) (h : G[k]? = some g) :
    (G.take k).count g < G.count g := by
  obtain ⟨hk, hg⟩ := List.getElem?_eq_some_iff.mp h
  have e : G = G.take k ++ g :: G.drop (k + 1) := by
    rw [← hg, ← List.drop_eq_getElem_cons hk, List.take_append_drop]
  conv_rhs => rw [e]
  rw [List.count_append, List.count_cons_self]
  omega

/-- What `read_snp_matrix` does on a generation file that `read_generations` accepts
and a genotype file that `check_input_file` accepts, with `*snps` and `gen_sampled`
empty on entry: it returns; `nloci` becomes the number of lines; the cell of sample
`k` at locus `l` holds the numeric value of entry `k` of line `l`; and the cells
that exist are those of the time steps, with one row per sample of the time step
and `nloci` columns. -/
theorem read_snp_matrix_spec (fs : String → Option (List Char)) (fname gen_fname : String)
    (nloci : Int) (content : List Char) (G S : List Int) (found : Nat) (w : List Warning)
    (hopen : fs fname = some content)
    (hgen : read_generations fs gen_fname [] = .ok (G, S))
    (hchk : check_input_file fs fname nloci (G.length : Int) = .ok (found, w)) :
    ∃ snps, read_snp_matrix fs fname gen_fname [] [] nloci =
        .ok { sample_map := build_sample_map S G 0 [] [], snps := snps, gen_sampled := S,
              nloci := found, warnings := w } ∧
      found = (getlines content).length ∧
      (∀ l line k g c, (getlines content)[l]? = some line → G[k]? = some g →
        (entries line)[k]? = some c →
        read3 snps (S.indexOf g) ((G.take k).count g) l = some (atoi [c])) ∧
      (∀ t d l, (read3 snps t d l).isSome = true ↔
        ∃ g, S[t]? = some g ∧ d < G.count g ∧ l < found) := by
  obtain ⟨gcontent, hgopen⟩ := read_generations_opened _ _ _ _ hgen
  obtain ⟨_, hS⟩ := read_generations_ok _ _ _ _ _ _ hgopen hgen
  rw [List.append_nil] at hS
  have hGS : ∀ g ∈ G, g ∈ S := fun g hg => by
    rw [hS]; exact ((unique_copy_sort_spec G).2 g).mpr hg
  obtain ⟨hfound, hrows⟩ := check_input_file_ok_inv _ _ _ _ _ _ hopen hchk
  simp only at hfound
  have hcols : ∀ line ∈ getlines content, (entries line).length = G.length :=
    fun line hl => by exact_mod_cast (hrows line hl).1
  have halloc : ∀ t d l,
      ((read3 (S.map (fun g => zeros (G.count g) found)) t d l).isSome = true ↔
        ∃ g, S[t]? = some g ∧ d < G.count g ∧ l < found) := by
    intro t d l
    rw [read3_alloc]
    cases h : S[t]? with
    | none => simp
    | some g =>
      by_cases hc : d < G.count g ∧ l < found
      · simp [hc]
      · simp only [hc, if_false, Option.isSome_none, Bool.false_eq_true, Option.some.injEq,
          exists_eq_left', false_iff]
  obtain ⟨snps, hrun, ha, _, hc⟩ := fill_lines_spec G S hGS found (getlines content) 0
    (S.map (fun g => zeros (G.count g) found)) (by omega) hcols
    (fun k g l' hk hl' => (halloc _ _ _).mpr
      ⟨g, List.getElem?_indexOf (hGS g (List.getElem?_mem hk)), count_take_lt G k g hk, hl'⟩)
  refine ⟨snps, ?_, hfound, ?_, ?_⟩
  · unfold read_snp_matrix
    simp only [hgen, hchk, hopen, List.nil_append, hrun]
  · intro l line k g c hl hk hc'
    simpa using ha l line k g c hl hk hc'
  · intro t d l
    rw [hc]
    exact halloc t d l

/-- C5 (`check_input_file`, well-formed files): if every line of the genotype file has
exactly `n_columns` entries, each one of 0, 1, 2, 9, then `check_input_file`
returns normally, whatever the number of non-missing entries of a row and whatever
`nloci` is (these only add warnings), and the value returned is the number of
lines of the file; when `n_columns` is the sample count of an accepted generation
file, `read_snp_matrix` returns too and has stored that number into `nloci`. -/
theorem check_input_file_accepts_well_formed (fs : String → Option (List Char))
    (fname : String) (nloci n_columns : Int) (content : List Char)
    (hopen : fs fname = some content)
    (hrows : ∀ line ∈ getlines content, ((entries line).length : Int) = n_columns ∧
      ∀ c ∈ entries line, c ∈ ['0', '1', '2', '9']) :
    (∃ warnings, check_input_file fs fname nloci n_columns =
        .ok ((getlines content).length, warnings)) ∧
      ∀ gen_fname G S, read_generations fs gen_fname [] = .ok (G, S) →
        (G.length : Int) = n_columns →
        ∃ r, read_snp_matrix fs fname gen_fname [] [] nloci = .ok r ∧
          r.nloci = (getlines content).length := by
  obtain ⟨w, h⟩ := check_input_lines_ok fname n_columns (getlines content) 0 []
    (fun line hl => ⟨(hrows line hl).1, fun c hc => validCode_of_mem ((hrows line hl).2 c hc)⟩)
  have hchk : check_input_file fs fname nloci n_columns =
      .ok ((getlines content).length,
        if nloci ≠ ((getlines content).length : Int) then
          w ++ [.lociMismatch fname nloci (getlines content).length]
        else w) := by
    unfold check_input_file
    simp only [hopen, h, Nat.zero_add]
  refine ⟨⟨_, hchk⟩, ?_⟩
  intro gen_fname G S hgen hn
  rw [← hn] at hchk
  obtain ⟨snps, hrun, _, _, _⟩ :=
    read_snp_matrix_spec fs fname gen_fname nloci content G S _ _ hopen hgen hchk
  exact ⟨_, hrun, rfl⟩

/-- Witness for C5: two well-formed rows for four samples, the second argument `nloci`
being 0; the file is accepted with a warning and 2 is returned. -/
theorem check_input_file_accepts_well_formed_witness :
    fsDemo "geno" = some "0 1 2 9\n1 1 0 2\n".toList ∧
      (∀ line ∈ getlines "0 1 2 9\n1 1 0 2\n".toList, ((entries line).length : Int) = 4 ∧
        ∀ c ∈ entries line, c ∈ ['0', '1', '2', '9']) ∧
      ((∃ warnings, check_input_file fsDemo "geno" 0 4 =
          .ok ((getlines "0 1 2 9\n1 1 0 2\n".toList).length, warnings)) ∧
        ∀ gen_fname G S, read_generations fsDemo gen_fname [] = .ok (G, S) →
          (G.length : Int) = 4 →
          ∃ r, read_snp_matrix fsDemo "geno" gen_fname [] [] 0 = .ok r ∧
            r.nloci = (getlines "0 1 2 9\n1 1 0 2\n".toList).length) :=
  have hrows : ∀ line ∈ getlines "0 1 2 9\n1 1 0 2\n".toList,
      ((entries line).length : Int) = 4 ∧ ∀ c ∈ entries line, c ∈ ['0', '1', '2', '9'] := by
    decide
  ⟨by decide, hrows,
    check_input_file_accepts_well_formed fsDemo "geno" 0 4 "0 1 2 9\n1 1 0 2\n".toList
      (by decide) hrows⟩

/-- The map returned by `read_snp_matrix` sends the key `i` to the cell of sample `i`. -/
theorem build_sample_map_find (G S : List Int) (i : Nat) :
    map_find (build_sample_map S G 0 [] []) (i : Int) = sampleSlot G S i := by
  have h := build_sample_map_spec G S G [] [] [] (by simp)
    (fun g => by simp [map_at, map_find])
    (fun z => by
      have hz : ¬ (0 ≤ z ∧ z < 0) := by omega
      simp [map_find, hz]) (i : Int)
  simpa using h

/-- C8 (`read_snp_matrix`, calls stored where the sample map says): for a generation
file that `read_generations` accepts and a genotype file that `check_input_file`
accepts for its sample count, with `*snps` and `gen_sampled` empty on entry,
`read_snp_matrix` returns, and for every sample column `i` and every locus line
`l`, with `(t, d) = sample_map[i]`, the element `snps[t][d][l]` is the numeric value
of the `i`-th entry of line `l`. -/
theorem read_snp_matrix_stores_calls (fs : String → Option (List Char))
    (fname gen_fname : String) (nloci : Int) (content : List Char) (G S : List Int)
    (found : Nat) (w : List Warning) (hopen : fs fname = some content)
    (hgen : read_generations fs gen_fname [] = .ok (G, S))
    (hchk : check_input_file fs fname nloci (G.length : Int) = .ok (found, w)) :
    ∃ r, read_snp_matrix fs fname gen_fname [] [] nloci = .ok r ∧
      ∀ (i l : Nat) (line : List Char) (c : Char),
        (getlines content)[l]? = some line → (entries line)[i]? = some c →
        ∃ t d, map_find r.sample_map (i : Int) = some (t, d) ∧
          read3 r.snps t d l = some (atoi [c]) := by
  obtain ⟨snps, hrun, _, hcells, _⟩ :=
    read_snp_matrix_spec fs fname gen_fname nloci content G S found w hopen hgen hchk
  refine ⟨_, hrun, ?_⟩
  intro i l line c hl hc
  obtain ⟨_, hrows⟩ := check_input_file_ok_inv _ _ _ _ _ _ hopen hchk
  have hcol : (entries line).length = G.length := by
    exact_mod_cast (hrows line (List.getElem?_mem hl)).1
  have hi : i < G.length := by
    rw [← hcol]; exact (List.getElem?_eq_some_iff.mp hc).1
  refine ⟨S.indexOf G[i], (G.take i).count G[i], ?_, ?_⟩
  · simp only
    rw [build_sample_map_find, sampleSlot, List.getElem?_eq_getElem hi]
    rfl
  · exact hcells l line i G[i] c hl (List.getElem?_eq_getElem hi) hc

/-- Witness for C8: the generation file 3, 1, 3, 2 and the genotype file with the rows
"0 1 2 9" and "1 1 0 2". -/
theorem read_snp_matrix_stores_calls_witness :
    fsDemo "geno" = some "0 1 2 9\n1 1 0 2\n".toList ∧
      read_generations fsDemo "gen" [] = .ok ([3, 1, 3, 2], [1, 2, 3]) ∧
      check_input_file fsDemo "geno" 2 (([3, 1, 3, 2] : List Int).length : Int) =
        .ok (2, []) ∧
      ∃ r, read_snp_matrix fsDemo "geno" "gen" [] [] 2 = .ok r ∧
        ∀ (i l : Nat) (line : List Char) (c : Char),
          (getlines "0 1 2 9\n1 1 0 2\n".toList)[l]? = some line →
          (entries line)[i]? = some c →
          ∃ t d, map_find r.sample_map (i : Int) = some (t, d) ∧
            read3 r.snps t d l = some (atoi [c]) :=
  ⟨by decide, by decide, by decide,
    read_snp_matrix_stores_calls fsDemo "geno" "gen" 2 "0 1 2 9\n1 1 0 2\n".toList
      [3, 1, 3, 2] [1, 2, 3] 2 [] (by decide) (by decide) (by decide)⟩

/-- C9 (`read_snp_matrix`, loaded calls are valid): for a generation file that
`read_generations` accepts and a genotype file that `check_input_file` accepts, after
`read_snp_matrix` every cell `snps[t][d][l]` -- `t` a time step, `d` below the number of
samples of generation `gen_sampled[t]`, `l` below `nloci` -- exists, holds 0, 1, 2 or 9,
and has been written: it is the numeric value of the entry of line `l` in the column
of the `d`-th sample of that generation. -/
theorem read_snp_matrix_cells_valid (fs : String → Option (List Char))
    (fname gen_fname : String) (nloci : Int) (content : List Char) (G S : List Int)
    (found : Nat) (w : List Warning) (hopen : fs fname = some content)
    (hgen : read_generations fs gen_fname [] = .ok (G, S))
    (hchk : check_input_file fs fname nloci (G.length : Int) = .ok (found, w)) :
    ∃ r, read_snp_matrix fs fname gen_fname [] [] nloci = .ok r ∧
      r.gen_sampled = S ∧ r.nloci = (getlines content).length ∧
      ∀ t g d l, r.gen_sampled[t]? = some g → d < G.count g → l < r.nloci →
        ∃ v, read3 r.snps t d l = some v ∧ validCode v ∧
          ∃ i line c, G[i]? = some g ∧ (G.take i).count g = d ∧
            (getlines content)[l]? = some line ∧ (entries line)[i]? = some c ∧
            v = atoi [c] := by
  obtain ⟨snps, hrun, hfound, hcells, _⟩ :=
    read_snp_matrix_spec fs fname gen_fname nloci content G S found w hopen hgen hchk
  refine ⟨_, hrun, rfl, hfound, ?_⟩
  intro t g d l ht hd hl
  simp only at ht hl
  obtain ⟨_, hrows⟩ := check_input_file_ok_inv _ _ _ _ _ _ hopen hchk
  obtain ⟨gcontent, hgopen⟩ := read_generations_opened _ _ _ _ hgen
  obtain ⟨_, hS⟩ := read_generations_ok _ _ _ _ _ _ hgopen hgen
  rw [List.append_nil] at hS
  have hnodup : S.Nodup := by
    rw [hS]; exact (unique_copy_sort_spec G).1.nodup
  obtain ⟨ht', hg⟩ := List.getElem?_eq_some_iff.mp ht
  have hidx : S.indexOf g = t := by
    rw [← hg]; exact List.indexOf_getElem hnodup t ht'
  obtain ⟨i, hi, hrank⟩ := exists_occurrence g G d hd
  have hl' : l < (getlines content).length := by rw [← hfound]; exact hl
  have hline : (getlines content)[l]? = some (getlines content)[l] :=
    List.getElem?_eq_getElem hl'
  obtain ⟨hcol, hvalid⟩ := hrows _ (List.getElem?_mem hline)
  have hcol' : (entries (getlines content)[l]).length = G.length := by exact_mod_cast hcol
  have hi' : i < (entries (getlines content)[l]).length := by
    rw [hcol']; exact (List.getElem?_eq_some_iff.mp hi).1
  have hc : (entries (getlines content)[l])[i]? = some (entries (getlines content)[l])[i] :=
    List.getElem?_eq_getElem hi'
  refine ⟨atoi [(entries (getlines content)[l])[i]], ?_, hvalid _ (List.getElem?_mem hc),
    i, _, _, hi, hrank, hline, hc, rfl⟩
  have := hcells l _ i g _ hline hi hc
  rw [hidx, hrank] at this
  exact this

/-- Witness for C9: the generation file 3, 1, 3, 2 and the genotype file with the rows
"0 1 2 9" and "1 1 0 2". -/
theorem read_snp_matrix_cells_valid_witness :
    fsDemo "geno" = some "0 1 2 9\n1 1 0 2\n".toList ∧
      read_generations fsDemo "gen" [] = .ok ([3, 1, 3, 2], [1, 2, 3]) ∧
      check_input_file fsDemo "geno" 2 (([3, 1, 3, 2] : List Int).length : Int) =
        .ok (2, []) ∧
      ∃ r, read_snp_matrix fsDemo "geno" "gen" [] [] 2 = .ok r ∧
        r.gen_sampled = [1, 2, 3] ∧ r.nloci = (getlines "0 1 2 9\n1 1 0 2\n".toList).length ∧
        ∀ t g d l, r.gen_sampled[t]? = some g → d < ([3, 1, 3, 2] : List Int).count g →
          l < r.nloci →
          ∃ v, read3 r.snps t d l = some v ∧ validCode v ∧
            ∃ i line c, ([3, 1, 3, 2] : List Int)[i]? = some g ∧
              (([3, 1, 3, 2] : List Int).take i).count g = d ∧
              (getlines "0 1 2 9\n1 1 0 2\n".toList)[l]? = some line ∧
              (entries line)[i]? = some c ∧ v = atoi [c] :=
  ⟨by decide, by decide, by decide,
    read_snp_matrix_cells_valid fsDemo "geno" "gen" 2 "0 1 2 9\n1 1 0 2\n".toList
      [3, 1, 3, 2] [1, 2, 3] 2 [] (by decide) (by decide) (by decide)⟩

/-! ## Properties of `read_pop_labels` -/

theorem getline_good_snd (s x : List Char) :
    (getline { rest := s, good := true } x).2 = s.takeWhile (fun c => c ≠ '\n') := by
  unfold getline
  simp only [if_true]
  cases s.dropWhile (fun c => c ≠ '\n') <;> rfl

theorem getline_good_fst (s x : List Char) :
    (getline { rest := s, good := true } x).1 =
      match s.dropWhile (fun c => c ≠ '\n') with
      | [] => { rest := [], good := false }
      | _ :: r => { rest := r, good := true } := by
  unfold getline
  simp only [if_true]
  cases s.dropWhile (fun c => c ≠ '\n') <;> rfl

/-- The loop `while (getline(input, line))` and single calls of `getline` see the same
lines: on a good stream with characters left, `getline` delivers the first of the
lines and leaves a stream that will deliver the others. -/
theorem getlines_eq_getline (s : List Char) (hs : s ≠ []) (x : List Char) :
    getlines s = (getline { rest := s, good := true } x).2 ::
      pendingLines (getline { rest := s, good := true } x).1 := by
  induction s with
  | nil => exact absurd rfl hs
  | cons c rest ih =>
    rw [getline_good_snd, getline_good_fst, getlines]
    by_cases hc : c = '\n'
    · subst hc
      simp [pendingLines]
    · simp only [hc, if_false]
      have hp : (decide (c ≠ '\n')) = true := by simpa using hc
      rw [List.takeWhile_cons, List.dropWhile_cons]
      simp only [hp, if_true]
      by_cases hr : rest = []
      · subst hr
        simp [getlines, pendingLines]
      · rw [ih hr, getline_good_snd, getline_good_fst]

theorem getline_pending (input : IStream) (x line : List Char) (more : List (List Char))
    (h : pendingLines input = line :: more) :
    (getline input x).2 = line ∧ pendingLines (getline input x).1 = more := by
  obtain ⟨s, good⟩ := input
  cases good with
  | false => simp [pendingLines] at h
  | true =>
    have hs : s ≠ [] := by
      rintro rfl
      simp [pendingLines, getlines] at h
    have e := getlines_eq_getline s hs x
    simp only [pendingLines, if_true] at h
    rw [h] at e
    simp only [List.cons.injEq] at e
    exact ⟨e.1.symm, e.2.symm⟩

theorem write2_eq_none_iff (labels : List (List Int)) (t d : Nat) (v : Int) :
    write2 labels t d v = none ↔ read2 labels t d = none := by
  unfold write2 read2
  cases h1 : labels[t]? with
  | none => simp
  | some row =>
    simp only [ite_eq_right_iff, reduceCtorEq, imp_false, not_lt]
    exact List.getElem?_eq_none_iff.symm

/-- After the assignment `labels[t][d] = v` the element written holds `v` and all other
elements are as before. -/
theorem read2_write2 (labels labels' : List (List Int)) (t d : Nat) (v : Int)
    (h : write2 labels t d v = some labels') (t' d' : Nat) :
    read2 labels' t' d' = if t' = t ∧ d' = d then some v else read2 labels t' d' := by
  unfold write2 at h
  cases h1 : labels[t]? with
  | none => simp [h1] at h
  | some row =>
    simp only [h1] at h
    by_cases hd : d < row.length
    · simp only [hd, if_true, Option.some.injEq] at h
      subst h
      have ht : t < labels.length := (List.getElem?_eq_some_iff.mp h1).1
      unfold read2
      by_cases e1 : t' = t
      · subst e1
        rw [List.getElem?_set_self ht, h1]
        simp only
        by_cases e2 : d' = d
        · subst e2
          rw [List.getElem?_set_self hd]
          simp
        · rw [List.getElem?_set_ne (Ne.symm e2)]
          simp [e2]
      · rw [List.getElem?_set_ne (Ne.symm e1)]
        simp [e1]
    · simp [hd] at h

theorem read2_write2_isSome (labels labels' : List (List Int)) (t d : Nat) (v : Int)
    (h : write2 labels t d v = some labels') (t' d' : Nat) :
    (read2 labels' t' d').isSome = (read2 labels t' d').isSome := by
  rw [read2_write2 labels labels' t d v h]
  by_cases e : t' = t ∧ d' = d
  · obtain ⟨rfl, rfl⟩ := e
    have hn : read2 labels t' d' ≠ none := by
      intro hn
      rw [(write2_eq_none_iff labels t' d' v).mpr hn] at h
      cases h
    cases hr : read2 labels t' d' with
    | none => exact absurd hr hn
    | some x => simp
  · simp [e]

theorem read2_zeros (rows cols t d : Nat) :
    read2 (zeros rows cols) t d = if t < rows ∧ d < cols then some 0 else none := by
  unfold read2 zeros
  rw [List.getElem?_replicate]
  by_cases ht : t < rows
  · simp only [ht, if_true, true_and]
    rw [List.getElem?_replicate]
  · simp [ht]

/-- The inner loop of `read_pop_labels` for time step `t`, started at individual `d` with
`todo` individuals to go: if the stream still has `todo` lines, each holding one
integer, and the cells to be written exist, the loop succeeds, consumes `todo`
lines and stores the integer of the `j`-th of them at `labels[t][d + j]`; no other
cell changes. -/
theorem read_pop_labels_row_spec (t : Nat) :
    ∀ (todo d : Nat) (st : LabelState) (lines : List (List Char)) (vals : List Int),
      pendingLines st.input = lines →
      List.Forall₂ holdsOneInteger lines vals →
      todo ≤ lines.length →
      (∀ j, j < todo → (read2 st.labels t (d + j)).isSome = true) →
      ∃ st', read_pop_labels_row t todo d st = .ok st' ∧
        pendingLines st'.input = lines.drop todo ∧
        (∀ j, j < todo → read2 st'.labels t (d + j) = vals[j]?) ∧
        (∀ t' d', (t' ≠ t ∨ d' < d ∨ d + todo ≤ d') →
          read2 st'.labels t' d' = read2 st.labels t' d') ∧
        (∀ t' d', (read2 st'.labels t' d').isSome = (read2 st.labels t' d').isSome) := by
  intro todo
  induction todo with
  | zero =>
    intro d st lines vals hp _ _ _
    refine ⟨st, rfl, by simpa using hp, ?_, fun _ _ _ => rfl, fun _ _ => rfl⟩
    intro j hj
    omega
  | succ todo ih =>
    intro d st lines vals hp hall hlen hdom
    cases hall with
    | nil => simp at hlen
    | @cons ln v lines' vals' hln hrest =>
      obtain ⟨hline, hpend⟩ := getline_pending st.input st.line ln lines' hp
      obtain ⟨post, hext, _⟩ := extractInt_of_holdsOneInteger hln
      rw [read_pop_labels_row]
      cases hgl : getline st.input st.line with
      | mk input line =>
        rw [hgl] at hline hpend
        simp only at hline hpend
        subst hline
        simp only [hext]
        have hd0 : (read2 st.labels t d).isSome = true := by
          simpa using hdom 0 (Nat.succ_pos _)
        cases hw : write2 st.labels t d v with
        | none =>
          rw [(write2_eq_none_iff _ _ _ _).mp hw] at hd0
          cases hd0
        | some labels1 =>
          simp only
          obtain ⟨st', hrun, hp', ha, hb, hc⟩ := ih (d + 1)
            { input := input, line := line, label := some v, labels := labels1 }
            lines' vals' hpend hrest (by simpa using hlen)
            (fun j hj => by
              simp only
              rw [read2_write2_isSome _ _ _ _ _ hw]
              have := hdom (j + 1) (by omega)
              rw [show d + (j + 1) = d + 1 + j by omega] at this
              exact this)
          refine ⟨st', hrun, by simpa using hp', ?_, ?_, ?_⟩
          · intro j hj
            cases j with
            | zero =>
              rw [Nat.add_zero, hb t d (Or.inr (Or.inl (Nat.lt_succ_self d)))]
              simp only
              rw [read2_write2 _ _ _ _ _ hw]
              simp
            | succ j =>
              have := ha j (by omega)
              rw [show d + (j + 1) = d + 1 + j by omega]
              simpa using this
          · intro t' d' hfree
            rw [hb t' d' (by omega)]
            simp only
            rw [read2_write2 _ _ _ _ _ hw]
            have : ¬ (t' = t ∧ d' = d) := by omega
            simp [this]
          · intro t' d'
            rw [hc]
            simp only
            rw [read2_write2_isSome _ _ _ _ _ hw]

theorem firstLabelLine_mono (snp_data : SNPData) (t : Nat) :
    ∀ k, firstLabelLine snp_data t ≤ firstLabelLine snp_data (t + k) := by
  intro k
  induction k with
  | zero => exact le_refl _
  | succ k ih =>
    rw [← Nat.add_assoc, firstLabelLine]
    omega

/-- The outer loop of `read_pop_labels` from time step `t` on, with `todo` time steps to
go: if the stream is at the first line of time step `t`, the file has lines for all
individuals of these time steps and the cells exist, the loop succeeds and stores
at `labels[s][d]` the integer of line `firstLabelLine s + d`. -/
theorem read_pop_labels_steps_spec (snp_data : SNPData) (lines : List (List Char))
    (vals : List Int) (hall : List.Forall₂ holdsOneInteger lines vals) :
    ∀ (todo t : Nat) (st : LabelState),
      pendingLines st.input = lines.drop (firstLabelLine snp_data t) →
      firstLabelLine snp_data (t + todo) ≤ lines.length →
      (∀ s d, t ≤ s → s < t + todo → d < snp_data.total_individuals s →
        (read2 st.labels s d).isSome = true) →
      ∃ st', read_pop_labels_steps snp_data todo t st = .ok st' ∧
        (∀ s d, t ≤ s → s < t + todo → d < snp_data.total_individuals s →
          read2 st'.labels s d = vals[firstLabelLine snp_data s + d]?) ∧
        (∀ s d, s < t → read2 st'.labels s d = read2 st.labels s d) ∧
        (∀ s d, (read2 st'.labels s d).isSome = (read2 st.labels s d).isSome) := by
  intro todo
  induction todo with
  | zero =>
    intro t st _ _ _
    refine ⟨st, rfl, ?_, fun _ _ _ => rfl, fun _ _ => rfl⟩
    intro s d h1 h2
    omega
  | succ todo ih =>
    intro t st hp hlen hdom
    have hmono := firstLabelLine_mono snp_data (t + 1) todo
    rw [show t + 1 + todo = t + (todo + 1) by omega] at hmono
    have hnext : firstLabelLine snp_data (t + 1) =
        firstLabelLine snp_data t + snp_data.total_individuals t := rfl
    obtain ⟨st1, hrun1, hp1, ha1, hb1, hc1⟩ :=
      read_pop_labels_row_spec t (snp_data.total_individuals t) 0 st
        (lines.drop (firstLabelLine snp_data t)) (vals.drop (firstLabelLine snp_data t))
        hp (List.forall₂_drop _ hall) (by rw [List.length_drop]; omega)
        (fun j hj => by
          rw [Nat.zero_add]
          exact hdom t j (le_refl _) (by omega) hj)
    rw [List.drop_drop, ← hnext] at hp1
    obtain ⟨st', hrun, ha, hb, hc⟩ := ih (t + 1) st1 hp1
      (by rw [show t + 1 + todo = t + (todo + 1) by omega]; exact hlen)
      (fun s d h1 h2 hd => by
        rw [hc1]
        exact hdom s d (by omega) (by omega) hd)
    refine ⟨st', ?_, ?_, ?_, ?_⟩
    · rw [read_pop_labels_steps]
      simp only [hrun1]
      exact hrun
    · intro s d h1 h2 hd
      by_cases hs : s = t
      · subst hs
        rw [hb s d (Nat.lt_succ_self s)]
        have := ha1 d hd
        rw [Nat.zero_add, List.getElem?_drop] at this
        exact this
      · exact ha s d (by omega) (by omega) hd
    · intro s d hs
      rw [hb s d (by omega), hb1 s d (Or.inl (by omega))]
    · intro s d
      rw [hc, hc1]

/-- C10 (`read_pop_labels`, row-major label file): for every data set whose numbers of
individuals per time step do not exceed the second extent of the table, and every
label file whose lines each hold one integer and that has at least as many lines
as there are individuals, `read_pop_labels` returns a table with `labels[t][d]` the
integer on line `(n_0 + ... + n_{t-1}) + d` (0-based), for every time step `t` and
every `d < n_t`. -/
theorem read_pop_labels_row_major (fs : String → Option (List Char)) (fname : String)
    (snp_data : SNPData) (content : List Char) (vals : List Int)
    (hopen : fs fname = some content)
    (hlines : List.Forall₂ holdsOneInteger (getlines content) vals)
    (hcount : firstLabelLine snp_data snp_data.total_time_steps ≤ (getlines content).length)
    (hmax : ∀ t, t < snp_data.total_time_steps →
      snp_data.total_individuals t ≤ snp_data.max_individuals) :
    ∃ labels, read_pop_labels fs fname snp_data = .ok labels ∧
      ∀ t d, t < snp_data.total_time_steps → d < snp_data.total_individuals t →
        firstLabelLine snp_data t + d < vals.length ∧
        read2 labels t d = vals[firstLabelLine snp_data t + d]? := by
  obtain ⟨st', hrun, ha, _, _⟩ := read_pop_labels_steps_spec snp_data (getlines content) vals
    hlines snp_data.total_time_steps 0
    { input := { rest := content, good := true }, line := [], label := none,
      labels := zeros snp_data.total_time_steps snp_data.max_individuals }
    (by simp [pendingLines, firstLabelLine])
    (by rw [Nat.zero_add]; exact hcount)
    (fun s d _ h2 hd => by
      simp only
      rw [read2_zeros]
      have h3 : s < snp_data.total_time_steps := by omega
      have h4 := hmax s h3
      have h5 : d < snp_data.max_individuals := by omega
      simp [h3, h5])
  refine ⟨st'.labels, ?_, ?_⟩
  · unfold read_pop_labels
    simp only [hopen, hrun]
  · intro t d ht hd
    refine ⟨?_, ha t d (Nat.zero_le _) (by omega) hd⟩
    have h1 := firstLabelLine_mono snp_data (t + 1)
      (snp_data.total_time_steps - (t + 1))
    rw [show t + 1 + (snp_data.total_time_steps - (t + 1)) = snp_data.total_time_steps
      by omega] at h1
    have h2 : firstLabelLine snp_data (t + 1) =
        firstLabelLine snp_data t + snp_data.total_individuals t := rfl
    rw [← hlines.length_eq]
    omega

/-- Witness for C10: time steps of one and three individuals, labels 7, 8, 9, 10. -/
theorem read_pop_labels_row_major_witness :
    fsDemo "lab" = some "7\n8\n9\n10".toList ∧
      List.Forall₂ holdsOneInteger (getlines "7\n8\n9\n10".toList) [7, 8, 9, 10] ∧
      firstLabelLine snpDemo snpDemo.total_time_steps ≤ (getlines "7\n8\n9\n10".toList).length ∧
      (∀ t, t < snpDemo.total_time_steps →
        snpDemo.total_individuals t ≤ snpDemo.max_individuals) ∧
      ∃ labels, read_pop_labels fsDemo "lab" snpDemo = .ok labels ∧
        ∀ t d, t < snpDemo.total_time_steps → d < snpDemo.total_individuals t →
          firstLabelLine snpDemo t + d < ([7, 8, 9, 10] : List Int).length ∧
          read2 labels t d = ([7, 8, 9, 10] : List Int)[firstLabelLine snpDemo t + d]? :=
  have h10 : holdsOneInteger ['1', '0'] 10 :=
    ⟨[], [], ['1', '0'], [], rfl, by decide, by decide, by decide, by decide,
      Or.inl ⟨Or.inl rfl, by decide⟩, by decide, by decide⟩
  have hl : List.Forall₂ holdsOneInteger (getlines "7\n8\n9\n10".toList) [7, 8, 9, 10] :=
    List.Forall₂.cons (holdsOneInteger_digit '7' (by decide))
      (List.Forall₂.cons (holdsOneInteger_digit '8' (by decide))
        (List.Forall₂.cons (holdsOneInteger_digit '9' (by decide))
          (List.Forall₂.cons h10 List.Forall₂.nil)))
  have hm : ∀ t, t < snpDemo.total_time_steps →
      snpDemo.total_individuals t ≤ snpDemo.max_individuals := by decide
  ⟨by decide, hl, by decide, hm,
    read_pop_labels_row_major fsDemo "lab" snpDemo "7\n8\n9\n10".toList [7, 8, 9, 10]
      (by decide) hl (by decide) hm⟩

/-! ## `read_generations`: more than one generation time on a line -/

theorem takeWhile_isdigit_append_head {ds post : List Char}
    (hds : ∀ c ∈ ds, isdigit c = true) (hpost : ∀ c, post.head? = some c → isdigit c = false) :
    (ds ++ post).takeWhile isdigit = ds ∧ (ds ++ post).dropWhile isdigit = post := by
  have h1 : post.takeWhile isdigit = [] := by
    cases post with
    | nil => rfl
    | cons a t => simp [List.takeWhile, hpost a rfl]
  have h2 : post.dropWhile isdigit = post := by
    cases post with
    | nil => rfl
    | cons a t => simp [List.dropWhile, hpost a rfl]
  constructor
  · rw [List.takeWhile_append, List.takeWhile_eq_self_iff.mpr hds]; simp [h1]
  · rw [List.dropWhile_append_of_pos hds, h2]

/-- Extraction on a text that starts with the numeral of `v`, followed by something
that is not a digit, delivers `v` and leaves what follows the numeral. -/
theorem extractInt_numeral {tok post : List Char} {v : Int} (h : isNumeral tok v)
    (hpost : ∀ c, post.head? = some c → isdigit c = false) :
    extractInt (tok ++ post) = .ok v post := by
  obtain ⟨sign, ds, rfl, hne, hds, hv, hlo, hhi⟩ := h
  obtain ⟨d, ds', rfl⟩ := List.exists_cons_of_ne_nil hne
  have hd : isdigit d = true := hds d (List.mem_cons_self _ _)
  obtain ⟨hm, hp⟩ := isdigit_not_sign hd
  obtain ⟨htk, hdr⟩ := takeWhile_isdigit_append_head hds hpost
  have hrun : ∀ negative : Bool,
      INT_MIN ≤ (if negative then -(digitsValue (d :: ds') : Int)
        else (digitsValue (d :: ds') : Int)) →
      (if negative then -(digitsValue (d :: ds') : Int)
        else (digitsValue (d :: ds') : Int)) ≤ INT_MAX →
      extractDigits negative ((d :: ds') ++ post) =
        .ok (if negative then -(digitsValue (d :: ds') : Int)
          else (digitsValue (d :: ds') : Int)) post := by
    intro negative h1 h2
    unfold extractDigits
    rw [htk, hdr]
    simp only [hne, if_false, not_lt.mpr h1, not_lt.mpr h2]
  rcases hv with ⟨hs | hs, rfl⟩ | ⟨hs, rfl⟩
  · subst hs
    rw [List.nil_append, List.cons_append, extractInt_cons _ (isdigit_not_isspace hd)]
    have e : takeSign (d :: (ds' ++ post)) = (false, (d :: ds') ++ post) := by
      simp [takeSign, hm, hp]
    rw [e]
    exact hrun false hlo hhi
  · subst hs
    have e1 : isspace '+' = false := by decide
    rw [List.singleton_append, List.cons_append, extractInt_cons _ e1]
    have e : takeSign ('+' :: (d :: ds' ++ post)) = (false, (d :: ds') ++ post) := by
      simp [takeSign]
    rw [e]
    exact hrun false hlo hhi
  · subst hs
    have e1 : isspace '-' = false := by decide
    rw [List.singleton_append, List.cons_append, extractInt_cons _ e1]
    have e : takeSign ('-' :: (d :: ds' ++ post)) = (true, (d :: ds') ++ post) := by
      simp [takeSign]
    rw [e]
    exact hrun true hlo hhi

theorem isspace_not_isdigit {c : Char} (h : isspace c = true) : isdigit c = false := by
  cases hd : isdigit c with
  | false => rfl
  | true => rw [isdigit_not_isspace hd] at h; cases h

/-- On a line that starts with two integers both extractions of the inner loop of
`read_generations` succeed, so the loop ends in the fatal error. -/
theorem read_generations_line_two (fname : String) (line : List Char) (v w : Int)
    (generations : List Int) (h : startsWithTwoIntegers line v w) :
    read_generations_line fname (line.length + 1) line 0 generations =
      .error (.moreThanOneGeneration fname) := by
  obtain ⟨pre, first, sep, second, rest, rfl, hpre, hfirst, hsep, hsp, hsecond, hrest⟩ := h
  obtain ⟨s0, sep', rfl⟩ := List.exists_cons_of_ne_nil hsep
  have h1 : extractInt (pre ++ (first ++ (s0 :: sep' ++ (second ++ rest)))) =
      .ok v (s0 :: sep' ++ (second ++ rest)) := by
    rw [extractInt_skip hpre]
    apply extractInt_numeral hfirst
    intro c hc
    simp only [List.cons_append, List.head?_cons, Option.some.injEq] at hc
    subst hc
    exact isspace_not_isdigit (hsp _ (List.mem_cons_self _ _))
  have h2 : extractInt (s0 :: sep' ++ (second ++ rest)) = .ok w rest := by
    rw [extractInt_skip hsp]
    exact extractInt_numeral hsecond (fun c hc => isspace_not_isdigit (hrest c hc))
  rw [read_generations_line_length]
  simp only [h1, h2]

/-- The inner loop of `read_generations` fails in one way only. -/
theorem read_generations_line_error (fname : String) (line : List Char)
    (generations : List Int) (e : Failure)
    (h : read_generations_line fname (line.length + 1) line 0 generations = .error e) :
    e = .moreThanOneGeneration fname := by
  rw [read_generations_line_length] at h
  cases h1 : extractInt line with
  | ok g r =>
    simp only [h1] at h
    cases h2 : extractInt r with
    | ok g2 r2 => simp only [h2, Except.error.injEq] at h; exact h.symm
    | failSet x => simp [h2] at h
    | failKeep => simp [h2] at h
  | failSet x => simp [h1] at h
  | failKeep => simp [h1] at h

/-- If some line starts with two integers, the line loop of `read_generations` ends in
the fatal error. -/
theorem read_generations_lines_two (fname : String) (lines : List (List Char)) :
    ∀ generations : List Int,
      (∃ line ∈ lines, ∃ v w, startsWithTwoIntegers line v w) →
      read_generations_lines fname lines generations =
        .error (.moreThanOneGeneration fname) := by
  induction lines with
  | nil => intro _ h; obtain ⟨_, hl, _⟩ := h; cases hl
  | cons line rest ih =>
    intro generations h
    rw [read_generations_lines]
    cases h1 : read_generations_line fname (line.length + 1) line 0 generations with
    | error e =>
      rw [read_generations_line_error _ _ _ _ h1]
    | ok gens1 =>
      simp only
      apply ih
      obtain ⟨bad, hbad, v, w, hvw⟩ := h
      rcases List.mem_cons.mp hbad with rfl | hmem
      · rw [read_generations_line_two fname bad v w generations hvw] at h1
        cases h1
      · exact ⟨bad, hmem, v, w, hvw⟩

theorem isNumeral_digit (d : Char) (hd : isdigit d = true) :
    isNumeral [d] (digitVal d : Int) := by
  have hb : digitVal d ≤ 9 := by
    unfold isdigit at hd
    unfold digitVal
    have := of_decide_eq_true hd
    have e0 : '0'.toNat = 48 := rfl
    have e9 : '9'.toNat = 57 := rfl
    omega
  refine ⟨[], [d], rfl, by simp, by simpa using hd, ?_, ?_, ?_⟩
  · left; exact ⟨Or.inl rfl, by simp [digitsValue]⟩
  · unfold INT_MIN; omega
  · unfold INT_MAX; omega

/-- C12 as stated fails: the line "3 x 4" holds the whitespace-separated integers 3 and
4, the line "x 5 6" holds the whitespace-separated integers 5 and 6, and
`read_generations` accepts the file: an extraction stops at the word, so 3 is the
only integer read. -/
theorem read_generations_accepts_mixed_line :
    fsDemoGen "gen_mixed" = some "3 x 4\nx 5 6\n".toList ∧
      getlines "3 x 4\nx 5 6\n".toList = ["3 x 4".toList, "x 5 6".toList] ∧
      holdsSeveralIntegers "3 x 4".toList ∧ holdsSeveralIntegers "x 5 6".toList ∧
      read_generations fsDemoGen "gen_mixed" [] = .ok ([3], [3]) :=
  ⟨by decide, by decide,
    ⟨0, 2, ['3'], ['4'], 3, 4, by decide, by decide, by decide,
      isNumeral_digit '3' (by decide), isNumeral_digit '4' (by decide)⟩,
    ⟨1, 2, ['5'], ['6'], 5, 6, by decide, by decide, by decide,
      isNumeral_digit '5' (by decide), isNumeral_digit '6' (by decide)⟩,
    by decide⟩

/-- C12, amended (`read_generations`, more than one generation time): if some line of
the generation file starts, after optional whitespace, with two integers separated by
whitespace, `read_generations` ends in the fatal input error "more than one
generation time per line" and returns nothing. -/
theorem read_generations_rejects_two_integers (fs : String → Option (List Char))
    (fname : String) (gen_sampled : List Int) (content : List Char)
    (hopen : fs fname = some content)
    (hbad : ∃ line ∈ getlines content, ∃ v w, startsWithTwoIntegers line v w) :
    read_generations fs fname gen_sampled = .error (.moreThanOneGeneration fname) ∧
      (Failure.moreThanOneGeneration fname).isInputError = true := by
  refine ⟨?_, rfl⟩
  unfold read_generations
  simp only [hopen]
  rw [read_generations_lines_two fname (getlines content) [] hbad]

/-- Witness for the amended C12: the generation file with the lines "3" and "1 2". -/
theorem read_generations_rejects_two_integers_witness :
    fsDemoGen "gen_pair" = some "3\n1 2\n".toList ∧
      (∃ line ∈ getlines "3\n1 2\n".toList, ∃ v w, startsWithTwoIntegers line v w) ∧
      (read_generations fsDemoGen "gen_pair" [] = .error (.moreThanOneGeneration "gen_pair") ∧
        (Failure.moreThanOneGeneration "gen_pair").isInputError = true) :=
  have hbad : ∃ line ∈ getlines "3\n1 2\n".toList, ∃ v w, startsWithTwoIntegers line v w :=
    ⟨"1 2".toList, by decide, 1, 2,
      ⟨[], ['1'], [' '], ['2'], [], rfl, by decide, isNumeral_digit '1' (by decide),
        by decide, by decide, isNumeral_digit '2' (by decide), by decide⟩⟩
  ⟨by decide, hbad,
    read_generations_rejects_two_integers fsDemoGen "gen_pair" [] "3\n1 2\n".toList
      (by decide) hbad⟩

/-! ## Genotype rows are read character by character -/

/-- The inner loop of `check_input_file` sees a line only through its entries. -/
theorem check_input_row_entries (fname : String) (locus_count : Nat) (line : List Char) :
    ∀ (col_count nonmissing : Nat),
      check_input_row fname locus_count line col_count nonmissing =
        check_input_row fname locus_count (entries line) col_count nonmissing := by
  induction line with
  | nil => intro _ _; rfl
  | cons ch iss ih =>
    intro col nm
    by_cases hs : isspace ch = true
    · rw [entries_cons_space _ hs, check_input_row]
      simp only [hs, if_true]
      exact ih col nm
    · have hs' : isspace ch = false := by simpa using hs
      rw [entries_cons_nonspace _ hs', check_input_row, check_input_row]
      simp only [hs', Bool.false_eq_true, if_false]
      by_cases hv : atoi [ch] = 0 ∨ atoi [ch] = 1 ∨ atoi [ch] = 2 ∨ atoi [ch] = 9
      · simp only [hv, not_true_eq_false, if_false]
        exact ih _ _
      · simp only [hv, not_false_eq_true, if_true]

/-- The line loop of `check_input_file` sees the lines only through their entries. -/
theorem check_input_lines_entries (fname : String) (n_columns : Int)
    (lines : List (List Char)) :
    ∀ (locus_count : Nat) (warnings : List Warning),
      check_input_lines fname n_columns lines locus_count warnings =
        check_input_lines fname n_columns (lines.map entries) locus_count warnings := by
  induction lines with
  | nil => intro _ _; rfl
  | cons line rest ih =>
    intro lc w
    rw [List.map_cons, check_input_lines, check_input_lines, ← check_input_row_entries]
    cases check_input_row fname (lc + 1) line 0 0 with
    | error e => rfl
    | ok p =>
      obtain ⟨cols, nm⟩ := p
      simp only
      by_cases hn : (cols : Int) = n_columns
      · simp only [hn, ne_eq, not_true_eq_false, if_false]
        exact ih _ _
      · simp only [hn, ne_eq, not_false_eq_true, if_true]

/-- The inner fill loop of `read_snp_matrix` sees a line only through its entries. -/
theorem fill_row_entries (generations gen_sampled : List Int) (l : Nat) (line : List Char) :
    ∀ (i : Nat) (gen_to_nsamples : IntMap Nat) (snps : Snps),
      fill_row generations gen_sampled l line i gen_to_nsamples snps =
        fill_row generations gen_sampled l (entries line) i gen_to_nsamples snps := by
  induction line with
  | nil => intro _ _ _; rfl
  | cons ch iss ih =>
    intro i m snps
    by_cases hs : isspace ch = true
    · rw [entries_cons_space _ hs, fill_row]
      simp only [hs, if_true]
      exact ih i m snps
    · have hs' : isspace ch = false := by simpa using hs
      rw [entries_cons_nonspace _ hs', fill_row, fill_row]
      simp only [hs', Bool.false_eq_true, if_false]
      cases generations[i]? with
      | none => rfl
      | some gen =>
        simp only
        cases write3 snps (gen_sampled.indexOf gen) (map_at m gen) l (atoi [ch]) with
        | none => rfl
        | some snps1 =>
          simp only
          exact ih _ _ _

/-- The fill loop of `read_snp_matrix` sees the lines only through their entries. -/
theorem fill_lines_entries (generations gen_sampled : List Int) (nloci : Nat)
    (lines : List (List Char)) :
    ∀ (l : Nat) (snps : Snps),
      fill_lines generations gen_sampled nloci lines l snps =
        fill_lines generations gen_sampled nloci (lines.map entries) l snps := by
  induction lines with
  | nil => intro _ _; rfl
  | cons line rest ih =>
    intro l snps
    rw [List.map_cons, fill_lines, fill_lines, ← fill_row_entries]
    cases fill_row generations gen_sampled l line 0 [] snps with
    | error e => rfl
    | ok snps1 =>
      simp only
      by_cases hb : l + 1 = nloci
      · simp only [hb, if_true]
      · simp only [hb, if_false]
        exact ih _ _

/-- The function `read_generations` depends on the file system only through the
contents of the file it opens. -/
theorem read_generations_congr (fs fs' : String → Option (List Char)) (fname : String)
    (gen_sampled : List Int) (h : fs fname = fs' fname) :
    read_generations fs fname gen_sampled = read_generations fs' fname gen_sampled := by
  unfold read_generations
  rw [h]

/-- The check of a genotype file depends on its contents only through the entries of
its lines. -/
theorem check_input_file_entries (fs fs' : String → Option (List Char)) (fname : String)
    (nloci n_columns : Int) (content content' : List Char)
    (hopen : fs fname = some content) (hopen' : fs' fname = some content')
    (hsame : (getlines content).map entries = (getlines content').map entries) :
    check_input_file fs fname nloci n_columns = check_input_file fs' fname nloci n_columns := by
  unfold check_input_file
  simp only [hopen, hopen']
  rw [check_input_lines_entries fname n_columns (getlines content),
    check_input_lines_entries fname n_columns (getlines content'), hsame]

/-- C16 (genotype rows are read character by character, ignoring whitespace): for two
genotype files whose corresponding lines have the same sequence of non-whitespace
characters, `check_input_file` gives the same outcome (the same locus count and
warnings, or the same fatal error with the same line and column), and
`read_snp_matrix`, run with the same generation file, gives the same result, in
particular the same matrix. -/
theorem genotype_rows_ignore_whitespace (fs fs' : String → Option (List Char))
    (fname gen_fname : String) (content content' : List Char)
    (hopen : fs fname = some content) (hopen' : fs' fname = some content')
    (hgen : fs gen_fname = fs' gen_fname)
    (hsame : (getlines content).map entries = (getlines content').map entries) :
    (∀ nloci n_columns : Int,
      check_input_file fs fname nloci n_columns =
        check_input_file fs' fname nloci n_columns) ∧
      ∀ (snps : Snps) (gen_sampled : List Int) (nloci : Int),
        read_snp_matrix fs fname gen_fname snps gen_sampled nloci =
          read_snp_matrix fs' fname gen_fname snps gen_sampled nloci := by
  have hchk : ∀ nloci n_columns : Int,
      check_input_file fs fname nloci n_columns =
        check_input_file fs' fname nloci n_columns :=
    fun nloci n_columns =>
      check_input_file_entries fs fs' fname nloci n_columns content content' hopen hopen' hsame
  refine ⟨hchk, ?_⟩
  intro snps gen_sampled nloci
  unfold read_snp_matrix
  rw [read_generations_congr fs fs' gen_fname gen_sampled hgen]
  cases read_generations fs' gen_fname gen_sampled with
  | error e => rfl
  | ok p =>
    obtain ⟨generations, gs⟩ := p
    simp only
    rw [hchk]
    cases check_input_file fs' fname nloci (generations.length : Int) with
    | error e => rfl
    | ok q =>
      obtain ⟨found, w⟩ := q
      simp only [hopen, hopen']
      rw [fill_lines_entries generations gs found (getlines content),
        fill_lines_entries generations gs found (getlines content'), hsame]

/-- Witness for C16: the rows "0 1 2 9" and "1 1 0 2" against the same rows written
without separators, with a tab and with double spaces. -/
theorem genotype_rows_ignore_whitespace_witness :
    fsDemo "geno" = some "0 1 2 9\n1 1 0 2\n".toList ∧
      fsDemoPacked "geno" = some "0129\n1\t1 0  2\n".toList ∧
      fsDemo "gen" = fsDemoPacked "gen" ∧
      (getlines "0 1 2 9\n1 1 0 2\n".toList).map entries =
        (getlines "0129\n1\t1 0  2\n".toList).map entries ∧
      ((∀ nloci n_columns : Int,
        check_input_file fsDemo "geno" nloci n_columns =
          check_input_file fsDemoPacked "geno" nloci n_columns) ∧
        ∀ (snps : Snps) (gen_sampled : List Int) (nloci : Int),
          read_snp_matrix fsDemo "geno" "gen" snps gen_sampled nloci =
            read_snp_matrix fsDemoPacked "geno" "gen" snps gen_sampled nloci) :=
  ⟨by decide, by decide, by decide, by decide,
    genotype_rows_ignore_whitespace fsDemo fsDemoPacked "geno" "gen"
      "0 1 2 9\n1 1 0 2\n".toList "0129\n1\t1 0  2\n".toList
      (by decide) (by decide) (by decide) (by decide)⟩

/-! ## The sample map of `read_snp_matrix` -/

theorem earlierSamples_eq_count (G : List Int) (g : Int) :
    ∀ i, earlierSamples G i g = (G.take i).count g := by
  intro i
  induction i with
  | zero => simp [earlierSamples]
  | succ i ih =>
    unfold earlierSamples at ih ⊢
    rw [List.range_succ, List.filter_append, List.length_append, ih, List.take_succ,
      List.count_append]
    congr 1
    cases h : G[i]? with
    | none => simp [List.filter, h]
    | some x =>
      by_cases e : x = g
      · subst e; simp [List.filter, h]
      · simp [List.filter, h, e, List.count_cons]

theorem count_take_lt_take (G : List Int) (i j : Nat) (g : Int) (hij : i < j)
    (hi : G[i]? = some g) : (G.take i).count g < (G.take j).count g := by
  have h := count_take_lt (G.take j) i g (by rw [List.getElem?_take_of_lt hij]; exact hi)
  rw [List.take_take, Nat.min_eq_left (le_of_lt hij)] at h
  exact h

/-- Facts about the vector `gen_sampled` left by an accepted run of `read_generations`
that started with an empty one. -/
theorem gen_sampled_of_read_generations (fs : String → Option (List Char)) (fname : String)
    (G S : List Int) (h : read_generations fs fname [] = .ok (G, S)) :
    List.Sorted (fun a b => a < b) S ∧ S.Nodup ∧ ∀ g, g ∈ S ↔ g ∈ G := by
  obtain ⟨content, hopen⟩ := read_generations_opened _ _ _ _ h
  obtain ⟨_, hS⟩ := read_generations_ok _ _ _ _ _ _ hopen h
  rw [List.append_nil] at hS
  rw [hS]
  exact ⟨(unique_copy_sort_spec G).1, (unique_copy_sort_spec G).1.nodup,
    (unique_copy_sort_spec G).2⟩

/-- Two different columns have different cells. -/
theorem sampleSlot_inj (G S : List Int) (hGS : ∀ g ∈ G, g ∈ S) (i j : Nat) (p : Nat × Nat)
    (hi : sampleSlot G S i = some p) (hj : sampleSlot G S j = some p) : i = j := by
  unfold sampleSlot at hi hj
  cases hgi : G[i]? with
  | none => simp [hgi] at hi
  | some g =>
    cases hgj : G[j]? with
    | none => simp [hgj] at hj
    | some g' =>
      simp only [hgi, hgj, Option.map_some', Option.some.injEq] at hi hj
      rw [← hj] at hi
      simp only [Prod.mk.injEq] at hi
      obtain ⟨h1, h2⟩ := hi
      have hg : g ∈ S := hGS g (List.getElem?_mem hgi)
      have hg' : g' ∈ S := hGS g' (List.getElem?_mem hgj)
      have e : g = g' := (List.indexOf_inj hg hg').mp h1
      subst e
      rcases Nat.lt_trichotomy i j with hlt | heq | hgt
      · have := count_take_lt_take G i j g hlt hgi
        omega
      · exact heq
      · have := count_take_lt_take G j i g hgt hgj
        omega

/-- The map returned by `read_snp_matrix` has exactly the keys that are columns of the
generation vector, each mapped to the cell of that column. -/
theorem build_sample_map_find_int (G S : List Int) (z : Int) :
    map_find (build_sample_map S G 0 [] []) z =
      if 0 ≤ z then sampleSlot G S z.toNat else none := by
  have h := build_sample_map_spec G S G [] [] [] (by simp)
    (fun g => by simp [map_at, map_find])
    (fun z => by
      have hz : ¬ (0 ≤ z ∧ z < 0) := by omega
      simp [map_find, hz]) z
  simpa using h

/-- C13 (`read_snp_matrix`, the sample map): for an accepted generation file and an
accepted genotype file, `read_snp_matrix` returns, `gen_sampled` is strictly
increasing, and for every sample column `i` the map has `sample_map[i] = (t, d)`
where `gen_sampled[t]` is `generations[i]` and `d` is the number of samples `j < i`
with `generations[j] = generations[i]`; so of two samples of one generation the
earlier column gets the same `t` and the smaller `d`. -/
theorem read_snp_matrix_sample_map (fs : String → Option (List Char))
    (fname gen_fname : String) (nloci : Int) (content : List Char) (G S : List Int)
    (found : Nat) (w : List Warning) (hopen : fs fname = some content)
    (hgen : read_generations fs gen_fname [] = .ok (G, S))
    (hchk : check_input_file fs fname nloci (G.length : Int) = .ok (found, w)) :
    ∃ r, read_snp_matrix fs fname gen_fname [] [] nloci = .ok r ∧
      List.Sorted (fun a b => a < b) r.gen_sampled ∧
      (∀ (i : Nat) (g : Int), G[i]? = some g →
        ∃ t d, map_find r.sample_map (i : Int) = some (t, d) ∧
          r.gen_sampled[t]? = some g ∧ d = earlierSamples G i g) ∧
      (∀ (i j : Nat) (g : Int), i < j → G[i]? = some g → G[j]? = some g →
        ∃ t d d', map_find r.sample_map (i : Int) = some (t, d) ∧
          map_find r.sample_map (j : Int) = some (t, d') ∧ d < d') := by
  obtain ⟨snps, hrun, _, _, _⟩ :=
    read_snp_matrix_spec fs fname gen_fname nloci content G S found w hopen hgen hchk
  obtain ⟨hsorted, _, hmem⟩ := gen_sampled_of_read_generations fs gen_fname G S hgen
  have hslot : ∀ (i : Nat) (g : Int), G[i]? = some g →
      map_find (build_sample_map S G 0 [] []) (i : Int) =
        some (S.indexOf g, (G.take i).count g) := by
    intro i g hi
    rw [build_sample_map_find, sampleSlot, hi]
    rfl
  refine ⟨_, hrun, hsorted, ?_, ?_⟩
  · intro i g hi
    refine ⟨S.indexOf g, (G.take i).count g, hslot i g hi, ?_, ?_⟩
    · exact List.getElem?_indexOf ((hmem g).mpr (List.getElem?_mem hi))
    · exact (earlierSamples_eq_count G g i).symm
  · intro i j g hij hi hj
    exact ⟨S.indexOf g, (G.take i).count g, (G.take j).count g, hslot i g hi, hslot j g hj,
      count_take_lt_take G i j g hij hi⟩

/-- Witness for C13: the generation file 3, 1, 3, 2 and the genotype file with the rows
"0 1 2 9" and "1 1 0 2". -/
theorem read_snp_matrix_sample_map_witness :
    fsDemo "geno" = some "0 1 2 9\n1 1 0 2\n".toList ∧
      read_generations fsDemo "gen" [] = .ok ([3, 1, 3, 2], [1, 2, 3]) ∧
      check_input_file fsDemo "geno" 2 (([3, 1, 3, 2] : List Int).length : Int) =
        .ok (2, []) ∧
      ∃ r, read_snp_matrix fsDemo "geno" "gen" [] [] 2 = .ok r ∧
        List.Sorted (fun a b => a < b) r.gen_sampled ∧
        (∀ (i : Nat) (g : Int), ([3, 1, 3, 2] : List Int)[i]? = some g →
          ∃ t d, map_find r.sample_map (i : Int) = some (t, d) ∧
            r.gen_sampled[t]? = some g ∧ d = earlierSamples [3, 1, 3, 2] i g) ∧
        (∀ (i j : Nat) (g : Int), i < j → ([3, 1, 3, 2] : List Int)[i]? = some g →
          ([3, 1, 3, 2] : List Int)[j]? = some g →
          ∃ t d d', map_find r.sample_map (i : Int) = some (t, d) ∧
            map_find r.sample_map (j : Int) = some (t, d') ∧ d < d') :=
  ⟨by decide, by decide, by decide,
    read_snp_matrix_sample_map fsDemo "geno" "gen" 2 "0 1 2 9\n1 1 0 2\n".toList
      [3, 1, 3, 2] [1, 2, 3] 2 [] (by decide) (by decide) (by decide)⟩

/-- An assignment to an element keeps the number of rows of every time step. -/
theorem write3_rows (snps snps' : Snps) (t d l : Nat) (v : Int)
    (h : write3 snps t d l v = some snps') :
    snps'.map List.length = snps.map List.length := by
  unfold write3 at h
  cases h1 : snps[t]? with
  | none => simp [h1] at h
  | some mat =>
    cases h2 : mat[d]? with
    | none => simp [h1, h2] at h
    | some row =>
      simp only [h1, h2] at h
      by_cases hl : l < row.length
      · simp only [hl, if_true, Option.some.injEq] at h
        subst h
        apply List.ext_getElem?
        intro n
        rw [List.getElem?_map, List.getElem?_map, List.getElem?_set]
        by_cases e : t = n
        · subst e
          have ht : t < snps.length := (List.getElem?_eq_some_iff.mp h1).1
          simp [ht, h1]
        · simp [e]
      · simp [hl] at h

/-- The inner fill loop keeps the number of rows of every time step. -/
theorem fill_row_rows (G S : List Int) (l : Nat) (iss : List Char) :
    ∀ (i : Nat) (m : IntMap Nat) (snps snps' : Snps),
      fill_row G S l iss i m snps = .ok snps' →
      snps'.map List.length = snps.map List.length := by
  induction iss with
  | nil =>
    intro i m snps snps' h
    simp only [fill_row, Except.ok.injEq] at h
    rw [h]
  | cons ch iss ih =>
    intro i m snps snps' h
    rw [fill_row] at h
    by_cases hs : isspace ch = true
    · simp only [hs, if_true] at h
      exact ih _ _ _ _ h
    · have hs' : isspace ch = false := by simpa using hs
      simp only [hs', Bool.false_eq_true, if_false] at h
      cases hg : G[i]? with
      | none => simp [hg] at h
      | some gen =>
        simp only [hg] at h
        cases hw : write3 snps (S.indexOf gen) (map_at m gen) l (atoi [ch]) with
        | none => simp [hw] at h
        | some snps1 =>
          simp only [hw] at h
          rw [ih _ _ _ _ h, write3_rows _ _ _ _ _ _ hw]

/-- The fill loop keeps the number of rows of every time step. -/
theorem fill_lines_rows (G S : List Int) (nloci : Nat) (lines : List (List Char)) :
    ∀ (l : Nat) (snps snps' : Snps),
      fill_lines G S nloci lines l snps = .ok snps' →
      snps'.map List.length = snps.map List.length := by
  induction lines with
  | nil =>
    intro l snps snps' h
    simp only [fill_lines, Except.ok.injEq] at h
    rw [h]
  | cons line rest ih =>
    intro l snps snps' h
    rw [fill_lines] at h
    cases hr : fill_row G S l line 0 [] snps with
    | error e => simp [hr] at h
    | ok snps1 =>
      simp only [hr] at h
      by_cases hb : l + 1 = nloci
      · simp only [hb, if_true, Except.ok.injEq] at h
        rw [← h, fill_row_rows _ _ _ _ _ _ _ _ hr]
      · simp only [hb, if_false] at h
        rw [ih _ _ _ h, fill_row_rows _ _ _ _ _ _ _ _ hr]

/-- After `read_snp_matrix`, started with an empty store, time step `t` has one row
for every sample of generation `gen_sampled[t]`. -/
theorem read_snp_matrix_rows (fs : String → Option (List Char)) (fname gen_fname : String)
    (nloci : Int) (G S : List Int) (r : Loaded)
    (hgen : read_generations fs gen_fname [] = .ok (G, S))
    (hrun : read_snp_matrix fs fname gen_fname [] [] nloci = .ok r) :
    r.gen_sampled = S ∧ r.snps.map List.length = S.map (fun g => G.count g) := by
  unfold read_snp_matrix at hrun
  simp only [hgen] at hrun
  cases hchk : check_input_file fs fname nloci (G.length : Int) with
  | error e => simp [hchk] at hrun
  | ok q =>
    obtain ⟨found, w⟩ := q
    simp only [hchk] at hrun
    cases hopen : fs fname with
    | none => simp [hopen] at hrun
    | some content =>
      simp only [hopen, List.nil_append] at hrun
      cases hfill : fill_lines G S found (getlines content) 0
          (S.map (fun g => zeros (G.count g) found)) with
      | error e => simp [hfill] at hrun
      | ok snps =>
        simp only [hfill, Except.ok.injEq] at hrun
        subst hrun
        refine ⟨rfl, ?_⟩
        simp only
        rw [fill_lines_rows _ _ _ _ _ _ _ hfill, List.map_map]
        apply List.map_congr_left
        intro g _
        simp [zeros]

/-- The numbers of samples of the distinct generations add up to the number of samples. -/
theorem sum_count_eq_length (G S : List Int) (hnodup : S.Nodup) (hmem : ∀ g, g ∈ S ↔ g ∈ G) :
    (S.map (fun g => G.count g)).sum = G.length := by
  have hperm : S.Perm G.dedup :=
    (List.perm_ext_iff_of_nodup hnodup (List.nodup_dedup G)).mpr
      (fun g => by rw [hmem g, List.mem_dedup])
  rw [(hperm.map (fun g => G.count g)).sum_eq]
  exact List.sum_map_count_dedup_eq_length G

/-- C14 (`read_snp_matrix`, the sample map is a bijection onto the rows): for an accepted
generation file with `n` samples and an accepted genotype file, `read_snp_matrix`
returns; `sample_map` has exactly the keys `0 .. n-1`; it is injective; its image is
exactly the set of pairs `(t, d)` with `t` an index of `gen_sampled` and `d` below
the number of samples of generation `gen_sampled[t]`; and the row counts of the
matrices in `snps` are these numbers of samples, all at least 1, with sum `n`. -/
theorem read_snp_matrix_sample_map_bijective (fs : String → Option (List Char))
    (fname gen_fname : String) (nloci : Int) (content : List Char) (G S : List Int)
    (found : Nat) (w : List Warning) (hopen : fs fname = some content)
    (hgen : read_generations fs gen_fname [] = .ok (G, S))
    (hchk : check_input_file fs fname nloci (G.length : Int) = .ok (found, w)) :
    ∃ r, read_snp_matrix fs fname gen_fname [] [] nloci = .ok r ∧
      (∀ z : Int, (map_find r.sample_map z).isSome = true ↔ 0 ≤ z ∧ z < (G.length : Int)) ∧
      (∀ (z z' : Int) (p : Nat × Nat), map_find r.sample_map z = some p →
        map_find r.sample_map z' = some p → z = z') ∧
      (∀ t d : Nat, (∃ z : Int, map_find r.sample_map z = some (t, d)) ↔
        ∃ g, r.gen_sampled[t]? = some g ∧ d < G.count g) ∧
      r.snps.map List.length = r.gen_sampled.map (fun g => G.count g) ∧
      (∀ rows ∈ r.snps.map List.length, 1 ≤ rows) ∧
      (r.snps.map List.length).sum = G.length := by
  obtain ⟨snps, hrun, _, _, _⟩ :=
    read_snp_matrix_spec fs fname gen_fname nloci content G S found w hopen hgen hchk
  obtain ⟨_, hnodup, hmem⟩ := gen_sampled_of_read_generations fs gen_fname G S hgen
  have hGS : ∀ g ∈ G, g ∈ S := fun g hg => (hmem g).mpr hg
  obtain ⟨_, hrows⟩ := read_snp_matrix_rows fs fname gen_fname nloci G S _ hgen hrun
  simp only at hrows
  refine ⟨_, hrun, ?_, ?_, ?_, hrows, ?_, ?_⟩
  · intro z
    simp only
    rw [build_sample_map_find_int]
    by_cases hz : 0 ≤ z
    · simp only [hz, if_true, true_and]
      unfold sampleSlot
      rw [Option.isSome_map']
      constructor
      · intro h
        have : z.toNat < G.length := by
          by_contra hn
          rw [List.getElem?_eq_none (not_lt.mp hn)] at h
          cases h
        omega
      · intro h
        have : z.toNat < G.length := by omega
        rw [List.getElem?_eq_getElem this]
        rfl
    · simp [hz]
  · intro z z' p hz hz'
    simp only at hz hz'
    rw [build_sample_map_find_int] at hz hz'
    by_cases h0 : 0 ≤ z
    · by_cases h0' : 0 ≤ z'
      · simp only [h0, h0', if_true] at hz hz'
        have := sampleSlot_inj G S hGS _ _ p hz hz'
        omega
      · simp [h0'] at hz'
    · simp [h0] at hz
  · intro t d
    simp only
    constructor
    · rintro ⟨z, hz⟩
      rw [build_sample_map_find_int] at hz
      by_cases h0 : 0 ≤ z
      · simp only [h0, if_true] at hz
        unfold sampleSlot at hz
        cases hg : G[z.toNat]? with
        | none => simp [hg] at hz
        | some g =>
          simp only [hg, Option.map_some', Option.some.injEq, Prod.mk.injEq] at hz
          obtain ⟨rfl, rfl⟩ := hz
          exact ⟨g, List.getElem?_indexOf (hGS g (List.getElem?_mem hg)),
            count_take_lt G _ g hg⟩
      · simp [h0] at hz
    · rintro ⟨g, ht, hd⟩
      obtain ⟨i, hi, hrank⟩ := exists_occurrence g G d hd
      obtain ⟨ht', hg⟩ := List.getElem?_eq_some_iff.mp ht
      have hidx : S.indexOf g = t := by
        rw [← hg]; exact List.indexOf_getElem hnodup t ht'
      refine ⟨(i : Int), ?_⟩
      rw [build_sample_map_find, sampleSlot, hi, Option.map_some', hidx, hrank]
  · intro rows hrows'
    rw [hrows] at hrows'
    obtain ⟨g, hg, rfl⟩ := List.mem_map.mp hrows'
    exact List.count_pos_iff.mpr ((hmem g).mp hg)
  · rw [hrows]
    exact sum_count_eq_length G S hnodup hmem

/-- Witness for C14: the generation file 3, 1, 3, 2 and the genotype file with the rows
"0 1 2 9" and "1 1 0 2". -/
theorem read_snp_matrix_sample_map_bijective_witness :
    fsDemo "geno" = some "0 1 2 9\n1 1 0 2\n".toList ∧
      read_generations fsDemo "gen" [] = .ok ([3, 1, 3, 2], [1, 2, 3]) ∧
      check_input_file fsDemo "geno" 2 (([3, 1, 3, 2] : List Int).length : Int) =
        .ok (2, []) ∧
      ∃ r, read_snp_matrix fsDemo "geno" "gen" [] [] 2 = .ok r ∧
        (∀ z : Int, (map_find r.sample_map z).isSome = true ↔
          0 ≤ z ∧ z < (([3, 1, 3, 2] : List Int).length : Int)) ∧
        (∀ (z z' : Int) (p : Nat × Nat), map_find r.sample_map z = some p →
          map_find r.sample_map z' = some p → z = z') ∧
        (∀ t d : Nat, (∃ z : Int, map_find r.sample_map z = some (t, d)) ↔
          ∃ g, r.gen_sampled[t]? = some g ∧ d < ([3, 1, 3, 2] : List Int).count g) ∧
        r.snps.map List.length =
          r.gen_sampled.map (fun g => ([3, 1, 3, 2] : List Int).count g) ∧
        (∀ rows ∈ r.snps.map List.length, 1 ≤ rows) ∧
        (r.snps.map List.length).sum = ([3, 1, 3, 2] : List Int).length :=
  ⟨by decide, by decide, by decide,
    read_snp_matrix_sample_map_bijective fsDemo "geno" "gen" 2 "0 1 2 9\n1 1 0 2\n".toList
      [3, 1, 3, 2] [1, 2, 3] 2 [] (by decide) (by decide) (by decide)⟩

/-! ## The fill loop of `read_snp_matrix` stays within bounds -/

/-- Recording the accesses does not change the inner fill loop. -/
theorem fill_row_log_fst (G S : List Int) (l : Nat) (iss : List Char) :
    ∀ (i : Nat) (m : IntMap Nat) (snps : Snps) (log : List Access),
      (fill_row_log G S l iss i m snps log).1 = fill_row G S l iss i m snps := by
  induction iss with
  | nil => intro _ _ _ _; rfl
  | cons ch iss ih =>
    intro i m snps log
    rw [fill_row_log, fill_row]
    by_cases hs : isspace ch = true
    · simp only [hs, if_true]
      exact ih _ _ _ _
    · have hs' : isspace ch = false := by simpa using hs
      simp only [hs', Bool.false_eq_true, if_false]
      cases G[i]? with
      | none => rfl
      | some gen =>
        simp only
        cases write3 snps (S.indexOf gen) (map_at m gen) l (atoi [ch]) with
        | none => rfl
        | some snps1 =>
          simp only
          exact ih _ _ _ _

/-- Recording the accesses does not change the fill loop. -/
theorem fill_lines_log_fst (G S : List Int) (nloci : Nat) (lines : List (List Char)) :
    ∀ (l : Nat) (snps : Snps) (log : List Access),
      (fill_lines_log G S nloci lines l snps log).1 = fill_lines G S nloci lines l snps := by
  induction lines with
  | nil => intro _ _ _; rfl
  | cons line rest ih =>
    intro l snps log
    rw [fill_lines_log, fill_lines, ← fill_row_log_fst G S l line 0 [] snps log]
    cases fill_row_log G S l line 0 [] snps log with
    | mk r log1 =>
      cases r with
      | error e => rfl
      | ok snps1 =>
        simp only
        by_cases hb : l + 1 = nloci
        · simp only [hb, if_true]
        · simp only [hb, if_false]
          exact ih _ _ _

/-- When the inner fill loop returns, every access it recorded was to an element that
exists, two accesses were recorded for every entry of the line, and the elements
that exist are the same before and after. -/
theorem fill_row_log_ok (G S : List Int) (l : Nat) (iss : List Char) :
    ∀ (i : Nat) (m : IntMap Nat) (snps snps' : Snps) (log : List Access),
      (fill_row_log G S l iss i m snps log).1 = .ok snps' →
      (∀ a ∈ (fill_row_log G S l iss i m snps log).2, a ∈ log ∨ a.present G snps) ∧
        (fill_row_log G S l iss i m snps log).2.length =
          log.length + 2 * (entries iss).length ∧
        ∀ t d l', (read3 snps' t d l').isSome = (read3 snps t d l').isSome := by
  induction iss with
  | nil =>
    intro i m snps snps' log h
    simp only [fill_row_log, Except.ok.injEq] at h
    subst h
    exact ⟨fun a ha => Or.inl ha, by simp [fill_row_log, entries], fun _ _ _ => rfl⟩
  | cons ch iss ih =>
    intro i m snps snps' log h
    rw [fill_row_log] at h ⊢
    by_cases hs : isspace ch = true
    · simp only [hs, if_true] at h ⊢
      rw [entries_cons_space _ hs]
      exact ih _ _ _ _ _ h
    · have hs' : isspace ch = false := by simpa using hs
      simp only [hs', Bool.false_eq_true, if_false] at h ⊢
      rw [entries_cons_nonspace _ hs']
      cases hg : G[i]? with
      | none => simp [hg] at h
      | some gen =>
        simp only [hg] at h ⊢
        cases hw : write3 snps (S.indexOf gen) (map_at m gen) l (atoi [ch]) with
        | none => simp [hw] at h
        | some snps1 =>
          simp only [hw] at h ⊢
          obtain ⟨h1, h2, h3⟩ := ih _ _ _ _ _ h
          have hi : i < G.length := (List.getElem?_eq_some_iff.mp hg).1
          have hcell : (read3 snps (S.indexOf gen) (map_at m gen) l).isSome = true := by
            cases hr : read3 snps (S.indexOf gen) (map_at m gen) l with
            | none =>
              rw [(write3_eq_none_iff _ _ _ _ _).mpr hr] at hw
              cases hw
            | some x => rfl
          refine ⟨?_, ?_, ?_⟩
          · intro a ha
            rcases h1 a ha with hin | hex
            · simp only [List.append_assoc, List.mem_append, List.mem_cons,
                List.mem_singleton, List.not_mem_nil, or_false] at hin
              rcases hin with hin | rfl | rfl
              · exact Or.inl hin
              · exact Or.inr hi
              · exact Or.inr hcell
            · right
              cases a with
              | sample j => exact hex
              | cell t d l' =>
                have : (read3 snps1 t d l').isSome = true := hex
                rw [read3_write3_isSome _ _ _ _ _ _ hw] at this
                exact this
          · rw [h2]
            simp only [List.length_append, List.length_singleton, List.length_cons,
              List.length_nil]
            omega
          · intro t d l'
            rw [h3, read3_write3_isSome _ _ _ _ _ _ hw]

/-- When the fill loop returns, every access it recorded was to an element that exists. -/
theorem fill_lines_log_ok (G S : List Int) (nloci : Nat) (lines : List (List Char)) :
    ∀ (l : Nat) (snps snps' : Snps) (log : List Access),
      (fill_lines_log G S nloci lines l snps log).1 = .ok snps' →
      ∀ a ∈ (fill_lines_log G S nloci lines l snps log).2, a ∈ log ∨ a.present G snps := by
  induction lines with
  | nil =>
    intro l snps snps' log _ a ha
    exact Or.inl ha
  | cons line rest ih =>
    intro l snps snps' log h a ha
    rw [fill_lines_log] at h ha
    cases hr : fill_row_log G S l line 0 [] snps log with
    | mk r log1 =>
      have hr1 : (fill_row_log G S l line 0 [] snps log).1 = r := by rw [hr]
      have hr2 : (fill_row_log G S l line 0 [] snps log).2 = log1 := by rw [hr]
      cases r with
      | error e => simp [hr] at h
      | ok snps1 =>
        simp only [hr] at h ha
        obtain ⟨h1, _, h3⟩ := fill_row_log_ok G S l line 0 [] snps snps1 log hr1
        rw [hr2] at h1
        have hlog1 : a ∈ log1 → a ∈ log ∨ a.present G snps := h1 a
        by_cases hb : l + 1 = nloci
        · simp only [hb, if_true] at ha
          exact hlog1 ha
        · simp only [hb, if_false] at h ha
          rcases ih _ _ _ _ h a ha with hin | hex
          · exact hlog1 hin
          · right
            cases a with
            | sample j => exact hex
            | cell t d l' =>
              have : (read3 snps1 t d l').isSome = true := hex
              rw [h3] at this
              exact this

/-- The number of accesses that the fill loop records when all lines up to `nloci` are
read and every line has one entry per sample: two for every entry. -/
theorem fill_lines_log_length (G S : List Int) (nloci : Nat) (lines : List (List Char)) :
    ∀ (l : Nat) (snps snps' : Snps) (log : List Access),
      l + lines.length = nloci →
      (∀ line ∈ lines, (entries line).length = G.length) →
      (fill_lines_log G S nloci lines l snps log).1 = .ok snps' →
      (fill_lines_log G S nloci lines l snps log).2.length =
        log.length + 2 * (G.length * lines.length) := by
  induction lines with
  | nil => intro l snps snps' log _ _ _; simp [fill_lines_log]
  | cons line rest ih =>
    intro l snps snps' log hl hcols h
    rw [fill_lines_log] at h ⊢
    cases hr : fill_row_log G S l line 0 [] snps log with
    | mk r log1 =>
      have hr1 : (fill_row_log G S l line 0 [] snps log).1 = r := by rw [hr]
      have hr2 : (fill_row_log G S l line 0 [] snps log).2 = log1 := by rw [hr]
      cases r with
      | error e => simp [hr] at h
      | ok snps1 =>
        simp only [hr] at h ⊢
        obtain ⟨_, h2, _⟩ := fill_row_log_ok G S l line 0 [] snps snps1 log hr1
        rw [hr2, hcols line (List.mem_cons_self _ _)] at h2
        by_cases hb : l + 1 = nloci
        · have hrest : rest = [] := by
            apply List.eq_nil_of_length_eq_zero
            rw [List.length_cons] at hl
            omega
          subst hrest
          simp only [hb, if_true]
          rw [h2]
          simp
        · simp only [hb, if_false] at h ⊢
          rw [ih _ _ _ _ (by rw [List.length_cons] at hl; omega)
            (fun ln hln => hcols ln (List.mem_cons_of_mem _ hln)) h, h2, List.length_cons]
          rw [Nat.mul_succ]
          omega

/-- The elements that exist in the freshly allocated genotype store. -/
theorem read3_alloc_isSome (G S : List Int) (found t d l : Nat) :
    (read3 (S.map (fun g => zeros (G.count g) found)) t d l).isSome = true ↔
      ∃ g, S[t]? = some g ∧ d < G.count g ∧ l < found := by
  rw [read3_alloc]
  cases h : S[t]? with
  | none => simp
  | some g =>
    by_cases hc : d < G.count g ∧ l < found
    · simp [hc]
    · simp only [hc, if_false, Option.isSome_none, Bool.false_eq_true, Option.some.injEq,
        exists_eq_left', false_iff]

/-- C15 (`read_snp_matrix`, the fill loop stays within bounds): for an accepted generation
file and a genotype file that `check_input_file` accepts, with `*snps` and `gen_sampled`
empty on entry and the same file contents read by the check and by the fill loop,
`read_snp_matrix` returns, and at every access of the fill loop -- two for every entry
of every line -- the column `i` is below `generations.size()`, `index` is below
`gen_sampled.size()`, the row `gen_to_nsamples[gen]` is below the row count allocated
for that time step, and `l` is below `nloci`. -/
theorem read_snp_matrix_fill_in_bounds (fs : String → Option (List Char))
    (fname gen_fname : String) (nloci : Int) (content : List Char) (G S : List Int)
    (found : Nat) (w : List Warning) (hopen : fs fname = some content)
    (hgen : read_generations fs gen_fname [] = .ok (G, S))
    (hchk : check_input_file fs fname nloci (G.length : Int) = .ok (found, w)) :
    (∃ r, read_snp_matrix fs fname gen_fname [] [] nloci = .ok r ∧ r.gen_sampled = S ∧
        r.nloci = found) ∧
      (∀ a ∈ read_snp_matrix_accesses fs fname gen_fname [] [] nloci,
        a.inBounds G S found) ∧
      (read_snp_matrix_accesses fs fname gen_fname [] [] nloci).length =
        2 * (G.length * found) := by
  obtain ⟨snps, hrun, hfound, _, _⟩ :=
    read_snp_matrix_spec fs fname gen_fname nloci content G S found w hopen hgen hchk
  obtain ⟨_, _, hmem⟩ := gen_sampled_of_read_generations fs gen_fname G S hgen
  have hGS : ∀ g ∈ G, g ∈ S := fun g hg => (hmem g).mpr hg
  obtain ⟨_, hrows⟩ := check_input_file_ok_inv _ _ _ _ _ _ hopen hchk
  have hcols : ∀ line ∈ getlines content, (entries line).length = G.length :=
    fun line hl => by exact_mod_cast (hrows line hl).1
  obtain ⟨snps', hfill, _, _, _⟩ := fill_lines_spec G S hGS found (getlines content) 0
    (S.map (fun g => zeros (G.count g) found)) (by omega) hcols
    (fun k g l' hk hl' => (read3_alloc_isSome G S found _ _ _).mpr
      ⟨g, List.getElem?_indexOf (hGS g (List.getElem?_mem hk)), count_take_lt G k g hk, hl'⟩)
  have hlog : (fill_lines_log G S found (getlines content) 0
      (S.map (fun g => zeros (G.count g) found)) []).1 = .ok snps' := by
    rw [fill_lines_log_fst]; exact hfill
  have hacc : read_snp_matrix_accesses fs fname gen_fname [] [] nloci =
      (fill_lines_log G S found (getlines content) 0
        (S.map (fun g => zeros (G.count g) found)) []).2 := by
    unfold read_snp_matrix_accesses
    simp only [hgen, hchk, hopen, List.nil_append]
  refine ⟨⟨_, hrun, rfl, rfl⟩, ?_, ?_⟩
  · intro a ha
    rw [hacc] at ha
    rcases fill_lines_log_ok G S found (getlines content) 0 _ snps' [] hlog a ha with hin | hex
    · cases hin
    · cases a with
      | sample i => exact hex
      | cell t d l =>
        obtain ⟨g, hg, hd, hl⟩ := (read3_alloc_isSome G S found t d l).mp hex
        exact ⟨(List.getElem?_eq_some_iff.mp hg).1, ⟨g, hg, hd⟩, hl⟩
  · rw [hacc, fill_lines_log_length G S found (getlines content) 0 _ snps' []
      (by omega) hcols hlog, hfound]
    simp

/-- Witness for C15: the generation file 3, 1, 3, 2 and the genotype file with the rows
"0 1 2 9" and "1 1 0 2"; the fill loop makes sixteen accesses. -/
theorem read_snp_matrix_fill_in_bounds_witness :
    fsDemo "geno" = some "0 1 2 9\n1 1 0 2\n".toList ∧
      read_generations fsDemo "gen" [] = .ok ([3, 1, 3, 2], [1, 2, 3]) ∧
      check_input_file fsDemo "geno" 2 (([3, 1, 3, 2] : List Int).length : Int) =
        .ok (2, []) ∧
      ((∃ r, read_snp_matrix fsDemo "geno" "gen" [] [] 2 = .ok r ∧
          r.gen_sampled = [1, 2, 3] ∧ r.nloci = 2) ∧
        (∀ a ∈ read_snp_matrix_accesses fsDemo "geno" "gen" [] [] 2,
          a.inBounds [3, 1, 3, 2] [1, 2, 3] 2) ∧
        (read_snp_matrix_accesses fsDemo "geno" "gen" [] [] 2).length =
          2 * (([3, 1, 3, 2] : List Int).length * 2)) :=
  ⟨by decide, by decide, by decide,
    read_snp_matrix_fill_in_bounds fsDemo "geno" "gen" 2 "0 1 2 9\n1 1 0 2\n".toList
      [3, 1, 3, 2] [1, 2, 3] 2 [] (by decide) (by decide) (by decide)⟩

/-- The accesses of the fill loop on the generation file 3, 1, 3, 2 and the first row
of the genotype file. -/
theorem read_snp_matrix_accesses_run :
    (read_snp_matrix_accesses fsDemo "geno" "gen" [] [] 2).take 8 =
      [.sample 0, .cell 2 0 0, .sample 1, .cell 0 0 0,
        .sample 2, .cell 2 1 0, .sample 3, .cell 1 0 0] := by
  decide

/-! ## The convergence check -/

theorem entryChange_self (relative : Bool) (x : ℚ) : entryChange relative x x = 0 := by
  unfold entryChange
  cases relative <;> simp

theorem zipWith_same {α β : Type} (f : α → α → β) (l : List α) :
    List.zipWith f l l = l.map (fun a => f a a) := by
  induction l with
  | nil => rfl
  | cons a l ih => simp [List.zipWith, ih]

/-- Against itself a tensor has no entry that changed. -/
theorem entryChanges_self (relative : Bool) (theta : List (List (List ℚ))) :
    ∀ c ∈ entryChanges relative theta theta, c = 0 := by
  intro c hc
  unfold entryChanges at hc
  rw [zipWith_same] at hc
  obtain ⟨l1, hl1, hc1⟩ := List.mem_flatten.mp hc
  obtain ⟨m, _, rfl⟩ := List.mem_map.mp hl1
  rw [zipWith_same] at hc1
  obtain ⟨l2, hl2, hc2⟩ := List.mem_flatten.mp hc1
  obtain ⟨r, _, rfl⟩ := List.mem_map.mp hl2
  rw [zipWith_same] at hc2
  obtain ⟨x, _, rfl⟩ := List.mem_map.mp hc2
  exact entryChange_self relative x

theorem foldl_max_zero (changes : List ℚ) (h : ∀ c ∈ changes, c = 0) :
    changes.foldl max 0 = 0 := by
  induction changes with
  | nil => rfl
  | cons c cs ih =>
    rw [List.foldl_cons, h c (List.mem_cons_self _ _), max_self]
    exact ih (fun x hx => h x (List.mem_cons_of_mem _ hx))

theorem sum_zero (changes : List ℚ) (h : ∀ c ∈ changes, c = 0) : changes.sum = 0 := by
  induction changes with
  | nil => rfl
  | cons c cs ih =>
    rw [List.sum_cons, h c (List.mem_cons_self _ _), zero_add]
    exact ih (fun x hx => h x (List.mem_cons_of_mem _ hx))

/-- The summary of changes that are all zero is zero. -/
theorem summarise_zero (summary : ChangeSummary) (changes : List ℚ)
    (h : ∀ c ∈ changes, c = 0) : summarise summary changes = 0 := by
  cases summary with
  | maximum => exact foldl_max_zero changes h
  | mean =>
    show changes.sum / (changes.length : ℚ) = 0
    rw [sum_zero changes h, zero_div]

/-- C11 (`check_theta_convergence` is reflexive): for every mixture tensor `theta`, the
check of `theta` against a snapshot equal to `theta` returns `converged = true` and
the summary change 0 -- for each of the summaries named in the description and
every positive tolerance. -/
theorem check_theta_convergence_self (summary : ChangeSummary) (relative : Bool)
    (tolerance : ℚ) (theta : List (List (List ℚ))) (htol : 0 < tolerance) :
    check_theta_convergence summary relative tolerance theta theta = (true, 0) := by
  unfold check_theta_convergence
  rw [summarise_zero summary _ (entryChanges_self relative theta)]
  simp [htol]

/-- Witness for C11: two time steps with one individual each and two populations,
maximum absolute difference, tolerance one thousandth. -/
theorem check_theta_convergence_self_witness :
    (0 : ℚ) < 1 / 1000 ∧
      check_theta_convergence .maximum false (1 / 1000)
        [[[1 / 2, 1 / 2]], [[1 / 3, 2 / 3]]] [[[1 / 2, 1 / 2]], [[1 / 3, 2 / 3]]] = (true, 0) :=
  ⟨by norm_num,
    check_theta_convergence_self .maximum false (1 / 1000)
      [[[1 / 2, 1 / 2]], [[1 / 3, 2 / 3]]] (by norm_num)⟩

/-- The convergence check on a tensor that moved: the maximum absolute difference is
one half, which is not below the tolerance one thousandth. -/
theorem check_theta_convergence_run :
    check_theta_convergence .maximum false (1 / 1000)
      [[[1, 2]], [[3, 4]]] [[[1, 2]], [[3, 7 / 2]]] = (false, 1 / 2) := by
  unfold check_theta_convergence entryChanges summarise entryChange
  norm_num [List.zipWith, List.flatten, abs_of_pos]

/-! ## Concrete runs -/

/-- The lines of a file: a blank line is a line, a last line needs no newline. -/
theorem getlines_run :
    getlines "a\n\nbc".toList = [['a'], [], ['b', 'c']] ∧
      getlines "3\n1\n".toList = [['3'], ['1']] ∧ getlines [] = [] := by
  decide

/-- Extraction of an `int`: sign and digits are read, the rest is left; a value that
does not fit `int` makes the extraction fail. -/
theorem extractInt_run :
    extractInt " -12 x".toList = .ok (-12) [' ', 'x'] ∧
      extractInt "99999999999".toList = .failSet INT_MAX ∧
      extractInt "x".toList = .failSet 0 ∧ extractInt "  ".toList = .failKeep := by
  decide

/-- Two generation times on one line are fatal. -/
theorem read_generations_two_on_a_line :
    read_generations (fun _ => some "3 4\n".toList) "gen" [] =
      .error (.moreThanOneGeneration "gen") := by
  decide

/-- A row without non-missing entries and a differing `nloci` only give warnings. -/
theorem check_input_file_warnings :
    check_input_file (fun _ => some "0 1 2\n9 9 9\n".toList) "geno" 5 3 =
      .ok (2, [.noNonmissing "geno" 2, .lociMismatch "geno" 5 2]) := by
  decide

/-- A character that is not a digit has the numeric value 0 under `atoi`, so a row of
letters passes the check as a row of genotypes 0. -/
theorem check_input_file_letters :
    atoi ['a'] = 0 ∧
      check_input_file (fun _ => some "a b\n".toList) "geno" 1 2 = .ok (1, []) := by
  decide

/-- A full run of `read_snp_matrix` on the generation file 3, 1, 3, 2 and two loci. -/
theorem read_snp_matrix_run :
    read_snp_matrix fsDemo "geno" "gen" [] [] 0 =
      .ok { sample_map := [(0, (2, 0)), (1, (0, 0)), (2, (2, 1)), (3, (1, 0))]
            snps := [[[1, 1]], [[9, 2]], [[0, 1], [2, 0]]]
            gen_sampled := [1, 2, 3]
            nloci := 2
            warnings := [.lociMismatch "geno" 0 2] } := by
  decide

/-- A full run of `read_pop_labels` on the labels 7, 8, 9, 10. -/
theorem read_pop_labels_run :
    read_pop_labels fsDemo "lab" snpDemo = .ok [[7, 0, 0], [8, 9, 10]] := by
  decide

end Dystruct
